import Mathlib

/-!
Verification of the livestock-settlement extraction engine
(`src/parser.py`, `src/rules.py`, `src/processor.py`).

Text is modelled as `List Char`; lines are delimited by the newline
character.  Python floats are modelled as rationals (`ℚ`): every numeric
literal reached by the extraction regexes is a plain decimal, so exact
rational arithmetic is the faithful reading of the values involved in the
claims (orderings, sign flips, zero tests).  Each regular expression of the
source is hand-compiled to an executable matcher that follows Python's
leftmost-match, greedy/lazy backtracking semantics for that particular
pattern; character classes are modelled over ASCII plus the Spanish
accented letters that appear in the documents.
-/

namespace Hacienda

abbrev Txt := List Char

/-- Spanish accented letters used by the documents (both cases). -/
def isAccent (c : Char) : Bool :=
  c = 'Á' ∨ c = 'É' ∨ c = 'Í' ∨ c = 'Ó' ∨ c = 'Ú' ∨ c = 'Ñ' ∨ c = 'Ü' ∨
  c = 'á' ∨ c = 'é' ∨ c = 'í' ∨ c = 'ó' ∨ c = 'ú' ∨ c = 'ñ' ∨ c = 'ü'

/-- Python `\s` (ASCII part). -/
def isWsC (c : Char) : Bool :=
  c = ' ' ∨ c = '\t' ∨ c = '\n' ∨ c = '\x0d' ∨ c = '\x0b' ∨ c = '\x0c'

/-- Python `\w`: alphanumerics, underscore, and the modelled accented letters. -/
def isWordC (c : Char) : Bool :=
  c.isAlphanum ∨ c = '_' ∨ isAccent c

def isDigitComma (c : Char) : Bool := c.isDigit ∨ c = ','

/-- `str.lower` restricted to ASCII plus the modelled accented letters. -/
def lowerC (c : Char) : Char :=
  if c = 'Á' then 'á' else if c = 'É' then 'é' else if c = 'Í' then 'í' else
  if c = 'Ó' then 'ó' else if c = 'Ú' then 'ú' else if c = 'Ñ' then 'ñ' else
  if c = 'Ü' then 'ü' else c.toLower

/-- `str.upper` restricted to ASCII plus the modelled accented letters. -/
def upperC (c : Char) : Char :=
  if c = 'á' then 'Á' else if c = 'é' then 'É' else if c = 'í' then 'Í' else
  if c = 'ó' then 'Ó' else if c = 'ú' then 'Ú' else if c = 'ñ' then 'Ñ' else
  if c = 'ü' then 'Ü' else c.toUpper

/-- Case-insensitive character comparison (re.IGNORECASE). -/
def eqCI (a b : Char) : Bool := lowerC a = lowerC b

/-- Exact prefix test: does `hay` start with `needle`? -/
def startsWithTxt : Txt → Txt → Bool
  | [], _ => true
  | _ :: _, [] => false
  | a :: as, b :: bs => a = b && startsWithTxt as bs

/-- Python's `needle in hay` substring containment (exact). -/
def hasSub (needle : Txt) : Txt → Bool
  | [] => needle.isEmpty
  | c :: cs => startsWithTxt needle (c :: cs) || hasSub needle cs

/-! ### `src/rules.py` -/

inductive Sentido | CREDITO | DEBITO
deriving DecidableEq, Repr

inductive TipoAjuste | FISICO | MONETARIO
deriving DecidableEq, Repr

/-- `rules.Ajuste`: whether the document is an adjustment and how it acts. -/
structure Ajuste where
  es_ajuste : Bool
  sentido : Option Sentido := none
  tipo : Option TipoAjuste := none
deriving DecidableEq, Repr

/-- `Ajuste.signo_montos`: credit → −1, debit or non-adjustment → +1. -/
def Ajuste.signo_montos (a : Ajuste) : ℤ :=
  if ¬ a.es_ajuste then 1
  else if a.sentido = some Sentido.CREDITO then -1 else 1

/-- `Ajuste.afecta_cabezas_kilos`: only the physical adjustment touches head counts and kilos. -/
def Ajuste.afecta_cabezas_kilos (a : Ajuste) : Bool :=
  a.es_ajuste && a.tipo = some TipoAjuste.FISICO

/-- `rules.detectar_ajuste`, translated clause by clause. -/
def detectar_ajuste (texto : Txt) : Ajuste :=
  let t := texto.map upperC
  if ¬ hasSub "AJUSTE".data t then ⟨false, none, none⟩
  else
    let sentido : Option Sentido :=
      if hasSub "CRÉDITO".data t ∨ hasSub "CREDITO".data t then some Sentido.CREDITO
      else if hasSub "DÉBITO".data t ∨ hasSub "DEBITO".data t then some Sentido.DEBITO
      else none
    let tipo : Option TipoAjuste :=
      if hasSub "AJUSTE FÍSICO".data t ∨ hasSub "AJUSTE FISICO".data t then some TipoAjuste.FISICO
      else if hasSub "AJUSTE FINANCIERO".data t ∨ hasSub "AJUSTE MONETARIO".data t then
        some TipoAjuste.MONETARIO
      else none
    ⟨true, sentido, tipo⟩

/-- `rules.condicion_iva_abreviar`, translated clause by clause (including the
`IVA`/`RESP` fallback). -/
def condicion_iva_abreviar (texto : Txt) : Txt :=
  let t := texto.map upperC
  if hasSub "MONOTRIB".data t then "MT".data
  else if hasSub "EXENT".data t then "EX".data
  else if hasSub "RESPONSABLE".data t ∧ hasSub "INSCRIP".data t then "RI".data
  else if hasSub "IVA".data t ∧ hasSub "RESP".data t then "RI".data
  else []

/-- Does the text start with a word character? (`\b` test helper). -/
def headIsWord : Txt → Bool
  | [] => false
  | c :: _ => isWordC c

/-! ### `parser.normalize_text` -/

/-- Python ` [ \t]` class used by the whitespace-collapsing substitution. -/
def isSpTab (c : Char) : Bool := c = ' ' ∨ c = '\t'

/-- Leftmost match of `(\d[\d,]*\.)\s*\n\s*(\d{1,3})\b` at the head of `t`:
returns the two groups and the matched length.  The greedy/backtracking
semantics collapse to: a digit, a maximal digit/comma run, a dot, a maximal
whitespace run that contains a newline, then a digit run of length 1–3
followed by a non-word character or the end. -/
def sub1Match (t : Txt) : Option (Txt × Txt × ℕ) :=
  match t with
  | [] => none
  | c :: cs =>
    if c.isDigit then
      let k := (cs.takeWhile isDigitComma).length
      match cs.drop k with
      | [] => none
      | dot :: rest =>
        if dot = '.' then
          if '\n' ∈ rest.takeWhile isWsC then
            let w := (rest.takeWhile isWsC).length
            let rest2 := rest.drop w
            let fr := (rest2.takeWhile Char.isDigit).length
            if 1 ≤ fr ∧ fr ≤ 3 ∧ ¬ headIsWord (rest2.drop fr) then
              some (t.take (k + 2), rest2.take fr, (k + 2) + w + fr)
            else none
          else none
        else none
    else none

/-- Leftmost match of `(\d[\d,]*\.\d)\s*\n\s*(\d)\b` at the head of `t`:
a digit, a maximal digit/comma run, a dot, one digit, a maximal whitespace
run containing a newline, then a single digit followed by a non-word
character or the end. -/
def sub2Match (t : Txt) : Option (Txt × Txt × ℕ) :=
  match t with
  | [] => none
  | c :: cs =>
    if c.isDigit then
      let k := (cs.takeWhile isDigitComma).length
      match cs.drop k with
      | [] => none
      | [_] => none
      | dot :: d :: rest =>
        if dot = '.' ∧ d.isDigit then
          if '\n' ∈ rest.takeWhile isWsC then
            let w := (rest.takeWhile isWsC).length
            match rest.drop w with
            | e :: rest2 =>
              if e.isDigit ∧ ¬ headIsWord rest2 then
                some (t.take (k + 3), [e], (k + 3) + w + 1)
              else none
            | [] => none
          else none
        else none
    else none

/-- `re.sub` scan for one of the two number-joining substitutions: at each
position try the match; on success emit `group1 ++ group2` and continue after
the match, otherwise emit one character and move on.  `fuel` bounds the
recursion (every step consumes at least one character). -/
def subJoinGo (m : Txt → Option (Txt × Txt × ℕ)) : ℕ → Txt → Txt
  | 0, t => t
  | fuel + 1, t =>
    match m t with
    | some (g1, g2, len) => g1 ++ g2 ++ subJoinGo m fuel (t.drop len)
    | none =>
      match t with
      | [] => []
      | c :: cs => c :: subJoinGo m fuel cs

/-- First substitution of `normalize_text`. -/
def sub1 (t : Txt) : Txt := subJoinGo sub1Match t.length t

/-- Second substitution of `normalize_text`. -/
def sub2 (t : Txt) : Txt := subJoinGo sub2Match t.length t

/-- `re.sub(r"[ \t]+", " ", ·)`: collapse runs of spaces/tabs to one space.
The flag records whether we are inside such a run. -/
def collapseSp : Bool → Txt → Txt
  | _, [] => []
  | inRun, c :: cs =>
    if isSpTab c then
      if inRun then collapseSp true cs else ' ' :: collapseSp true cs
    else c :: collapseSp false cs

/-- `parser.normalize_text`: the two number-joining substitutions followed by
horizontal-whitespace collapsing (the empty-string early return is the
identity on `[]`). -/
def normalize_text (t : Txt) : Txt := collapseSp false (sub2 (sub1 t))

/-! ### Scanning primitives -/

/-- `str.strip()` (ASCII whitespace). -/
def stripWs (t : Txt) : Txt := ((t.dropWhile isWsC).reverse.dropWhile isWsC).reverse

/-- `str.strip(set)`: drop characters of `set` from both ends. -/
def stripSet (s : Txt) (cset : List Char) : Txt :=
  ((s.dropWhile (cset.contains ·)).reverse.dropWhile (cset.contains ·)).reverse

/-- Numeric value of a digit string. -/
def natOfDigits (l : Txt) : ℕ := l.foldl (fun acc c => acc * 10 + (c.toNat - '0'.toNat)) 0

/-- Python `float()` restricted to the decimal shapes reachable from the
extraction regexes (`digits`, `digits.digits`, `.digits`, `digits.`);
anything else fails, as `float` does on those inputs. -/
def floatOfTxt (l : Txt) : Option ℚ :=
  let ip := l.takeWhile Char.isDigit
  match l.drop ip.length with
  | [] => if l.isEmpty then none else some (mkRat (natOfDigits ip) 1)
  | c :: frac =>
    if c = '.' ∧ frac.all Char.isDigit ∧ (ip ≠ [] ∨ frac ≠ []) then
      some (mkRat (natOfDigits (ip ++ frac)) (10 ^ frac.length))
    else none

/-- `parser.parse_money`: strip, drop `$`/space/comma, parse as float. -/
def parse_money (s : Txt) : Option ℚ :=
  let s1 := stripWs s
  if s1.isEmpty then none
  else floatOfTxt (s1.filter (fun c => ¬ (c = '$' ∨ c = ' ' ∨ c = ',')))

/-- `parser.parse_int`: strip, drop commas, `int(float(·))` (truncation; all
reachable inputs are non-negative so truncation is the floor). -/
def parse_int (s : Txt) : Option ℤ :=
  let s1 := stripWs s
  if s1.isEmpty then none
  else (floatOfTxt (s1.filter (fun c => ¬ c = ','))).map Rat.floor

/-- `float(parse_int(g) or 0)`. -/
def qOfIntOpt (o : Option ℤ) : ℚ := ((o.getD 0 : ℤ) : ℚ)

/-- Is the character at position `i` a word character? -/
def isWordAt (t : Txt) (i : ℕ) : Bool := headIsWord (t.drop i)

/-- Is the character before position `i` a word character?  (`\b` helper:
for a pattern starting with a word character, a word boundary at `i` is
exactly `¬ prevIsWord`.) -/
def prevIsWord (t : Txt) (i : ℕ) : Bool := if i = 0 then false else isWordAt t (i - 1)

/-- Case-insensitive prefix test (pattern first). -/
def startsWithCI : Txt → Txt → Bool
  | [], _ => true
  | _ :: _, [] => false
  | a :: as, b :: bs => eqCI a b && startsWithCI as bs

def headIs (s : Txt) (c : Char) : Bool :=
  match s with
  | x :: _ => x = c
  | [] => false

/-- Leftmost match of a positional matcher starting at or after `i`
(`re.search` semantics): returns the span `(start, end)`. -/
def firstMatchFrom (m : Txt → ℕ → Option ℕ) (t : Txt) (i : ℕ) : Option (ℕ × ℕ) :=
  (List.range (t.length + 1 - i)).findSome? fun d =>
    (m t (i + d)).map fun len => (i + d, i + d + len)

/-- `re.finditer`: non-overlapping leftmost matches, resuming after each
match (fuel-bounded; every match is non-empty so `t.length + 1` suffices). -/
def scanAllGo (m : Txt → ℕ → Option ℕ) (t : Txt) : ℕ → ℕ → List (ℕ × ℕ)
  | _, 0 => []
  | i, fuel + 1 =>
    match firstMatchFrom m t i with
    | none => []
    | some se => se :: scanAllGo m t (max se.2 (se.1 + 1)) fuel

def allMatches (m : Txt → ℕ → Option ℕ) (t : Txt) : List (ℕ × ℕ) :=
  scanAllGo m t 0 (t.length + 1)

def sliceTxt (t : Txt) (s e : ℕ) : Txt := (t.drop s).take (e - s)

/-- `re.sub` with a constant replacement: splice `rep` over the given
(disjoint, ascending) match spans. -/
def spliceAll (t : Txt) (rep : Txt) : List (ℕ × ℕ) → ℕ → Txt
  | [], cur => t.drop cur
  | se :: ms, cur => sliceTxt t cur se.1 ++ rep ++ spliceAll t rep ms se.2

def subAllWith (m : Txt → ℕ → Option ℕ) (rep : Txt) (t : Txt) : Txt :=
  spliceAll t rep (allMatches m t) 0

/-- Split on the newline character. -/
def splitLines : Txt → List Txt
  | [] => [[]]
  | c :: cs =>
    if c = '\n' then [] :: splitLines cs
    else
      match splitLines cs with
      | l :: ls => (c :: l) :: ls
      | [] => [[c]]

/-- `[ln.strip() for ln in block.splitlines() if ln.strip()]`. -/
def cleanLines (t : Txt) : List Txt :=
  ((splitLines t).map stripWs).filter (fun l => ¬ l.isEmpty)

/-! ### Data model of `src/parser.py` -/

/-- `parser.Party`. -/
structure Party where
  cuit : Txt := []
  nombre : Txt := []
  cond_iva_raw : Txt := []
  cond_iva : Txt := []
  iibb : Txt := []
deriving DecidableEq, Repr

/-- `parser.ItemHacienda`: one livestock line item. -/
structure ItemHacienda where
  categoria : Txt
  cabezas : ℚ
  kilos : ℚ
  um : Txt
  precio : ℚ
  bruto : ℚ
  iva_pct : Option ℚ := none
  iva_importe : Option ℚ := none
deriving DecidableEq, Repr

/-- `parser.Gasto`: one expense line. -/
structure Gasto where
  concepto : Txt
  base : Option ℚ
  alicuota : Option ℚ
  importe : ℚ
  iva_pct : Option ℚ
  iva_importe : Option ℚ
deriving DecidableEq, Repr

/-- `parser.ParsedDoc` (the fields used by the verified claims). -/
structure ParsedDoc where
  filename : Txt
  cod_arca : ℤ
  letra : Txt
  pv : Txt
  numero : Txt
  titulo : Txt
  fecha : Txt
  fecha_operacion : Txt
  emisor : Party
  receptor : Party
  tipo_interno : Txt
  ajuste : Ajuste
  importe_bruto : ℚ
  iva_bruto : ℚ
  total_gastos : ℚ
  iva_gastos : ℚ
  importe_neto : ℚ
  retenciones : List (Txt × ℚ)
  items : List ItemHacienda
  gastos : List Gasto
deriving Repr

/-! ### `src/processor.py` (per-document summary row of `build_outputs`) -/

/-- The signed quantities computed for one document's summary row by
`processor.build_outputs` (lines 88–131): sign `s_m` for monetary amounts,
sign `s_h` for head counts and kilos (only a physical adjustment affects
them). -/
structure Resumen where
  cabezas : ℚ
  kilos : ℚ
  neto_hacienda : ℚ
  iva_hacienda : ℚ
  gastos_sin_iva : ℚ
  iva_gastos : ℚ
deriving DecidableEq, Repr

/-- Per-document summary computation of `build_outputs`: `s_m = signo_montos`,
`s_h = s_m` when the adjustment affects physical quantities else `1`; monetary
totals are scaled by `s_m`, head-count and kilo sums by `s_h`. -/
def resumen_doc (d : ParsedDoc) : Resumen :=
  let s_m : ℚ := (d.ajuste.signo_montos : ℚ)
  let s_h : ℚ := if d.ajuste.afecta_cabezas_kilos then s_m else 1
  { cabezas := (d.items.map (fun it => it.cabezas)).sum * s_h
    kilos := (d.items.map (fun it => it.kilos)).sum * s_h
    neto_hacienda := d.importe_bruto * s_m
    iva_hacienda := d.iva_bruto * s_m
    gastos_sin_iva := d.total_gastos * s_m
    iva_gastos := d.iva_gastos * s_m }

/-! ### `parser.money_tokens` and the fixed VAT-rate literals -/

/-- Match of `\b\d[\d,]*\.\d{2,3}\b` at position `i`: word boundary, digit,
maximal digit/comma run, dot, then (greedily) three fraction digits with a
trailing boundary, else exactly two with a trailing boundary. -/
def moneyTokLen (t : Txt) (i : ℕ) : Option ℕ :=
  if prevIsWord t i then none
  else
    match t.drop i with
    | [] => none
    | c :: rest =>
      if c.isDigit then
        let k := (rest.takeWhile isDigitComma).length
        match rest.drop k with
        | [] => none
        | dot :: rest2 =>
          if dot = '.' then
            let fr := (rest2.takeWhile Char.isDigit).length
            if 3 ≤ fr ∧ ¬ isWordAt t (i + k + 5) then some (k + 5)
            else if fr = 2 ∧ ¬ isWordAt t (i + k + 4) then some (k + 4)
            else none
          else none
      else none

/-- The VAT-rate literals excluded from monetary tokens (`10.50`, `21.00`,
`27.00`, `0.00`). -/
def ivaRateLits : List Txt := ["10.50".data, "21.00".data, "27.00".data, "0.00".data]

/-- `parser.money_tokens`: all `\b\d[\d,]*\.\d{2,3}\b` tokens, excluding the
fixed VAT-rate literals. -/
def money_tokens (line : Txt) : List Txt :=
  ((allMatches moneyTokLen line).map fun se => sliceTxt line se.1 se.2).filter
    fun tok => ¬ ivaRateLits.contains tok

/-- Match of one of the rate literals with word boundaries at position `i`
(the alternation `\b(10\.50|21\.00|27\.00|0\.00)\b`, alternatives in order). -/
def ivaLitAt (t : Txt) (i : ℕ) : Option Txt :=
  if prevIsWord t i then none
  else ivaRateLits.find? fun lit =>
    startsWithTxt lit (t.drop i) && ¬ isWordAt t (i + lit.length)

/-- The detected VAT rate of a row: leftmost rate literal, parsed as float. -/
def detectIvaPct (t : Txt) : Option ℚ :=
  match (List.range (t.length + 1)).findSome? (fun i => ivaLitAt t i) with
  | some lit => floatOfTxt lit
  | none => none

/-! ### Unit-of-measure detection (`parse_items`) -/

/-- Match of `Kg\.?\s*Vivo` at the head of the suffix `s`; returns the
consumed length. -/
def kgVivoSuf (s : Txt) : Option ℕ :=
  if startsWithCI "Kg".data s then
    let s2 := s.drop 2
    let dotLen := if headIs s2 '.' then 1 else 0
    let s3 := s2.drop dotLen
    let w := (s3.takeWhile isWsC).length
    if startsWithCI "Vivo".data (s3.drop w) then some (2 + dotLen + w + 4) else none
  else none

def hasKgVivo (t : Txt) : Bool :=
  (List.range (t.length + 1)).any fun i => (kgVivoSuf (t.drop i)).isSome

/-- `\b lit \b` at position `i`, case-insensitively (for literals that start
and end with word characters). -/
def wordCIAt (lit : Txt) (t : Txt) (i : ℕ) : Bool :=
  ¬ prevIsWord t i && startsWithCI lit (t.drop i) && ¬ isWordAt t (i + lit.length)

def existsPos (p : Txt → ℕ → Bool) (t : Txt) : Bool :=
  (List.range (t.length + 1)).any fun i => p t i

def hasCabezaWord (t : Txt) : Bool := existsPos (wordCIAt "Cabeza".data) t

/-- The line 316/317 check `Kg\.?\s*Vivo|\bCabeza\b` of the merge pass. -/
def lineHasUM (l : Txt) : Bool := hasKgVivo l || hasCabezaWord l

/-- Literals generated by `\bUN(?:ID(?:AD(?:ES)?)?)?\b` in greedy order. -/
def unNestedLits : List Txt := ["UNIDADES".data, "UNIDAD".data, "UNID".data, "UN".data]

/-- Presence of `\bUN(?:ID(?:AD(?:ES)?)?)?\b|\bUNIDADES?\b|\bUNIDAD\b`
(the second alternation also admits "UNIDADE"). -/
def hasUnidadTok (t : Txt) : Bool :=
  existsPos (fun t i =>
    (unNestedLits ++ ["UNIDADE".data]).any fun lit => wordCIAt lit t i) t

/-- Unit-of-measure detection of `parse_items` (lines 352–358). -/
def detectUM (ln : Txt) : Txt :=
  if hasKgVivo ln then "Kg Vivo".data
  else if hasCabezaWord ln then "Cabeza".data
  else if hasUnidadTok ln then "Unidad".data
  else []

/-! ### Head-count / kilo recovery (`parse_items` lines 398–431) -/

/-- `(\d[\d,]*)`: a digit followed by the maximal digit/comma run. -/
def digitCommaGroup (s : Txt) : Option Txt :=
  match s with
  | c :: cs => if c.isDigit then some (c :: cs.takeWhile isDigitComma) else none
  | [] => none

/-- `\s+(\d[\d,]*)` at the head of `s`. -/
def wsThenGroup (s : Txt) : Option Txt :=
  let w := (s.takeWhile isWsC).length
  if 1 ≤ w then digitCommaGroup (s.drop w) else none

/-- `\s(\d{1,5})\s+Kg\.?\s*Vivo\s+(\d[\d,]*)` at position `i`; both groups. -/
def kgFullAt (ln : Txt) (i : ℕ) : Option (Txt × Txt) :=
  match ln.drop i with
  | [] => none
  | c :: s =>
    if isWsC c then
      let ds := s.takeWhile Char.isDigit
      if 1 ≤ ds.length ∧ ds.length ≤ 5 then
        let s2 := s.drop ds.length
        let w := (s2.takeWhile isWsC).length
        if 1 ≤ w then
          match kgVivoSuf (s2.drop w) with
          | some klen => (wsThenGroup (s2.drop (w + klen))).map fun g2 => (ds, g2)
          | none => none
        else none
      else none
    else none

/-- `\b(\d{1,5})\s+Kg\.?\s*Vivo\b` at position `i`; the head-count group. -/
def kgCabAt (ln : Txt) (i : ℕ) : Option Txt :=
  if prevIsWord ln i then none
  else
    let s := ln.drop i
    let ds := s.takeWhile Char.isDigit
    if 1 ≤ ds.length ∧ ds.length ≤ 5 then
      let s2 := s.drop ds.length
      let w := (s2.takeWhile isWsC).length
      if 1 ≤ w then
        match kgVivoSuf (s2.drop w) with
        | some klen =>
          if ¬ isWordAt ln (i + ds.length + w + klen) then some ds else none
        | none => none
      else none
    else none

/-- `Kg\.?\s*Vivo\s+(\d[\d,]*)` at position `i`; the kilos group. -/
def kgKilosAt (ln : Txt) (i : ℕ) : Option Txt :=
  match kgVivoSuf (ln.drop i) with
  | some klen => wsThenGroup (ln.drop (i + klen))
  | none => none

/-- `\bCabeza\s+(\d[\d,]*)` at position `i`; the head-count group. -/
def cabezaCountAt (ln : Txt) (i : ℕ) : Option Txt :=
  if ¬ prevIsWord ln i ∧ startsWithCI "Cabeza".data (ln.drop i) then
    wsThenGroup (ln.drop (i + 6))
  else none

/-- `\bUN(?:ID(?:AD(?:ES)?)?)?\b\s+(\d[\d,]*)` at position `i`. -/
def unCountAt (ln : Txt) (i : ℕ) : Option Txt :=
  if prevIsWord ln i then none
  else unNestedLits.findSome? fun lit =>
    if startsWithCI lit (ln.drop i) ∧ ¬ isWordAt ln (i + lit.length) then
      wsThenGroup (ln.drop (i + lit.length))
    else none

/-- Leftmost group produced by a positional group matcher. -/
def findFirstGroup {α : Type} (m : Txt → ℕ → Option α) (t : Txt) : Option α :=
  (List.range (t.length + 1)).findSome? fun i => m t i

/-! ### `parser._text_only_category` -/

/-- `\b\d[\d,]*\.\d{2}\b` (exactly two fraction digits) at position `i`. -/
def money2At (t : Txt) (i : ℕ) : Option ℕ :=
  if prevIsWord t i then none
  else
    match t.drop i with
    | [] => none
    | c :: rest =>
      if c.isDigit then
        let k := (rest.takeWhile isDigitComma).length
        match rest.drop k with
        | [] => none
        | dot :: rest2 =>
          if dot = '.' then
            let fr := (rest2.takeWhile Char.isDigit).length
            if 2 ≤ fr ∧ ¬ isWordAt t (i + k + 4) then some (k + 4) else none
          else none
      else none

/-- `\b\d[\d,]*\b` at position `i`: greedy digit/comma run that gives back
characters until a word boundary holds after its last character. -/
def intTokAt (t : Txt) (i : ℕ) : Option ℕ :=
  if prevIsWord t i then none
  else
    match t.drop i with
    | [] => none
    | c :: rest =>
      if c.isDigit then
        let R := rest.takeWhile isDigitComma
        (List.range (R.length + 1)).findSome? fun j =>
          let k := R.length - j
          let lastC := if k = 0 then c else R.getD (k - 1) c
          let ok := if isWordC lastC then ¬ isWordAt t (i + 1 + k) else isWordAt t (i + 1 + k)
          if ok then some (1 + k) else none
      else none

/-- `\bKg\.?\s*Vivo\b` at position `i`. -/
def kgVivoBAt (t : Txt) (i : ℕ) : Option ℕ :=
  if prevIsWord t i then none
  else
    match kgVivoSuf (t.drop i) with
    | some l => if ¬ isWordAt t (i + l) then some l else none
    | none => none

/-- `\bCabeza\b` at position `i`. -/
def cabezaTokAt (t : Txt) (i : ℕ) : Option ℕ :=
  if wordCIAt "Cabeza".data t i then some 6 else none

/-- `\bUN(?:ID(?:AD(?:ES)?)?)?\b` at position `i` (greedy variants). -/
def unTokAt (t : Txt) (i : ℕ) : Option ℕ :=
  if prevIsWord t i then none
  else unNestedLits.findSome? fun lit =>
    if startsWithCI lit (t.drop i) ∧ ¬ isWordAt t (i + lit.length) then some lit.length
    else none

/-- `\s*\.\s*` at position `i`. -/
def dotWsAt (t : Txt) (i : ℕ) : Option ℕ :=
  let s := t.drop i
  let a := (s.takeWhile isWsC).length
  if headIs (s.drop a) '.' then
    some (a + 1 + ((s.drop (a + 1)).takeWhile isWsC).length)
  else none

/-- `\s{2,}` at position `i`. -/
def ws2At (t : Txt) (i : ℕ) : Option ℕ :=
  let r := ((t.drop i).takeWhile isWsC).length
  if 2 ≤ r then some r else none

/-- Removal of the leading `^\s*\d{11}\s*-\s*` client-code prefix. -/
def stripClientCode (line : Txt) : Txt :=
  let w1 := (line.takeWhile isWsC).length
  let s := line.drop w1
  let ds := (s.takeWhile Char.isDigit).length
  if ds = 11 then
    let s2 := s.drop 11
    let w2 := (s2.takeWhile isWsC).length
    if headIs (s2.drop w2) '-' then
      let s3 := s2.drop (w2 + 1)
      s3.drop ((s3.takeWhile isWsC).length)
    else line
  else line

/-- `parser._text_only_category`: strip the client-code prefix, blank out
monetary amounts, integers, unit-of-measure words and stray dots, collapse
whitespace runs, and trim space/hyphen/slash characters. -/
def textOnlyCategory (line : Txt) : Txt :=
  let l1 := stripClientCode line
  let t1 := subAllWith money2At " ".data l1
  let t2 := subAllWith intTokAt " ".data t1
  let t3 := subAllWith kgVivoBAt " ".data t2
  let t4 := subAllWith cabezaTokAt " ".data t3
  let t5 := subAllWith unTokAt " ".data t4
  let t6 := subAllWith dotWsAt " ".data t5
  let t7 := subAllWith ws2At " ".data t6
  stripWs (stripSet t7 [' ', '-', '/'])

/-- One alternative of the non-livestock filter
`\b(Comisi[oó]n|Gastos?|Base\s+Imponible|Alicuota|Al[ií]cuota|IVA\b|Importe\s+IVA)\b`
matching at position `i`. -/
def antiGastosAt (t : Txt) (i : ℕ) : Bool :=
  if prevIsWord t i then false
  else
    let s := t.drop i
    ((startsWithCI "Comision".data s ∨ startsWithCI "Comisión".data s) ∧ ¬ isWordAt t (i + 8)) ∨
    (startsWithCI "Gastos".data s ∧ ¬ isWordAt t (i + 6)) ∨
    (startsWithCI "Gasto".data s ∧ ¬ isWordAt t (i + 5)) ∨
    (startsWithCI "Base".data s ∧
      (let w := ((s.drop 4).takeWhile isWsC).length
       1 ≤ w ∧ startsWithCI "Imponible".data ((s.drop 4).drop w) ∧
         ¬ isWordAt t (i + 4 + w + 9))) ∨
    ((startsWithCI "Alicuota".data s ∨ startsWithCI "Alícuota".data s) ∧ ¬ isWordAt t (i + 8)) ∨
    (startsWithCI "IVA".data s ∧ ¬ isWordAt t (i + 3)) ∨
    (startsWithCI "Importe".data s ∧
      (let w := ((s.drop 7).takeWhile isWsC).length
       1 ≤ w ∧ startsWithCI "IVA".data ((s.drop 7).drop w) ∧ ¬ isWordAt t (i + 7 + w + 3)))

def hasAntiGastos (t : Txt) : Bool := existsPos antiGastosAt t

/-! ### The merge pass and row processing of `parse_items` -/

/-- `[A-Za-zÁÉÍÓÚÑáéíóúñ]` (line 325). -/
def isLetterES (c : Char) : Bool :=
  c.isAlpha ∨ c = 'Á' ∨ c = 'É' ∨ c = 'Í' ∨ c = 'Ó' ∨ c = 'Ú' ∨ c = 'Ñ' ∨
  c = 'á' ∨ c = 'é' ∨ c = 'í' ∨ c = 'ó' ∨ c = 'ú' ∨ c = 'ñ'

/-- `[A-Za-zÁÉÍÓÚÜÑáéíóúüñ]` (line 342). -/
def isLetterESU (c : Char) : Bool := isLetterES c ∨ c = 'Ü' ∨ c = 'ü'

/-- `^(Datos\s+Adicionales|VENCIMIENTO)\b` anchored at the start of `l`. -/
def datosAdicionalesAt (l : Txt) : Bool :=
  (startsWithCI "Datos".data l ∧
    (let s := l.drop 5
     let w := (s.takeWhile isWsC).length
     1 ≤ w ∧ startsWithCI "Adicionales".data (s.drop w) ∧ ¬ isWordAt l (5 + w + 11))) ∨
  (startsWithCI "VENCIMIENTO".data l ∧ ¬ isWordAt l 11)

/-- `f"{a} {b}".strip()`. -/
def joinSp (a b : Txt) : Txt := stripWs (a ++ ' ' :: b)

def digitCount (l : Txt) : ℕ := (l.filter Char.isDigit).length

/-- The line-merging loop of `parse_items` (lines 310–348), with the
accumulator kept in reverse order.  Branch one joins a line without a
unit-of-measure token to the following line that has one (absorbing a third
text-only line); branch two glues a short stray line onto the previous merged
row; branch three appends a text-only continuation of a line that has
monetary tokens. -/
def mergeRowsGo : ℕ → List Txt → List Txt → List Txt
  | 0, acc, _ => acc.reverse
  | fuel + 1, acc, data =>
    match data with
    | [] => acc.reverse
    | cur :: rest =>
      if ¬ lineHasUM cur ∧ lineHasUM (rest.headD []) then
        match rest with
        | [] => acc.reverse
        | [nxt] => mergeRowsGo fuel (joinSp cur nxt :: acc) []
        | nxt :: third :: rest3 =>
          let combined := joinSp cur nxt
          if (money_tokens third).isEmpty ∧ third.any isLetterES then
            mergeRowsGo fuel (joinSp combined third :: acc) rest3
          else
            mergeRowsGo fuel (combined :: acc) (third :: rest3)
      else if ¬ acc.isEmpty ∧ digitCount cur < 3 ∧ (money_tokens cur).isEmpty then
        mergeRowsGo fuel (joinSp (acc.headD []) cur :: acc.tail) rest
      else
        match rest with
        | nxt2 :: rest4 =>
          if nxt2.any isLetterESU ∧ (money_tokens nxt2).isEmpty ∧
              ¬ (money_tokens cur).isEmpty ∧ ¬ datosAdicionalesAt nxt2 then
            mergeRowsGo fuel (joinSp cur nxt2 :: acc) rest4
          else
            mergeRowsGo fuel (cur :: acc) (nxt2 :: rest4)
        | [] => mergeRowsGo fuel (cur :: acc) []

/-- Entry point of the merge pass; every step consumes at least one input
line, so `data.length` steps suffice. -/
def mergeRows (acc : List Txt) (data : List Txt) : List Txt :=
  mergeRowsGo data.length acc data

/-- The monetary values of a row: `parse_money` over its monetary tokens. -/
def rowVals (ln : Txt) : List ℚ := (money_tokens ln).filterMap parse_money

/-- The sorted-value disambiguation (lines 368–396): with a VAT rate and at
least two values, gross is the largest, VAT amount the second largest, unit
price the smallest (with a third value, else 0); without a VAT rate and at
least one value, gross is the largest and unit price the smallest (with a
second value, else 0).  Rows with fewer values are dropped (`continue`). -/
def rowAmounts (iva_pct : Option ℚ) (vals : List ℚ) : Option (ℚ × ℚ × Option ℚ) :=
  match iva_pct with
  | some _ =>
    if 2 ≤ vals.length then
      let vs := List.insertionSort (· ≤ ·) vals
      some (if 3 ≤ vs.length then vs.getD 0 0 else 0, vs.getD (vs.length - 1) 0,
        some (vs.getD (vs.length - 2) 0))
    else none
  | none =>
    if 1 ≤ vals.length then
      let vs := List.insertionSort (· ≤ ·) vals
      some (if 2 ≤ vs.length then vs.getD 0 0 else 0, vs.getD (vs.length - 1) 0, none)
    else none

/-- Head-count and kilos recovery for a row, by unit of measure. -/
def rowCabezasKilos (um ln : Txt) : ℚ × ℚ :=
  if startsWithCI "kg".data um then
    match findFirstGroup kgFullAt ln with
    | some (g1, g2) => (qOfIntOpt (parse_int g1), qOfIntOpt (parse_int g2))
    | none =>
      let c := match findFirstGroup kgCabAt ln with
        | some g => qOfIntOpt (parse_int g)
        | none => 0
      let kk := match findFirstGroup kgKilosAt ln with
        | some g => qOfIntOpt (parse_int g)
        | none => 0
      (c, kk)
  else if startsWithCI "cabeza".data um then
    (match findFirstGroup cabezaCountAt ln with
     | some g => qOfIntOpt (parse_int g)
     | none => 0, 0)
  else if startsWithCI "unidad".data um then
    (match findFirstGroup unCountAt ln with
     | some g => qOfIntOpt (parse_int g)
     | none => 0, 0)
  else (0, 0)

/-- Processing of one merged row (body of the `for ln in merged` loop):
detect the unit of measure and VAT rate, extract and disambiguate the
monetary values, recover head count and kilos, and keep the row unless its
category is empty or matches the non-livestock filter. -/
def processRow (ln : Txt) : Option ItemHacienda :=
  let um := detectUM ln
  let iva_pct := detectIvaPct ln
  match rowAmounts iva_pct (rowVals ln) with
  | none => none
  | some (precio, bruto, iva_imp) =>
    let ck := rowCabezasKilos um ln
    let categoria := textOnlyCategory ln
    if categoria.isEmpty then none
    else if hasAntiGastos categoria then none
    else some ⟨categoria, ck.1, ck.2, um, precio, bruto, iva_pct, iva_imp⟩

/-! ### `parser.parse_items` (Strategy B, text heuristic) -/

/-- Match of `Categor[ií]a\s*/\s*Raza` at position `i` (IGNORECASE). -/
def catRazaAt (t : Txt) (i : ℕ) : Option ℕ :=
  let s := t.drop i
  if startsWithCI "Categor".data s then
    match s.drop 7 with
    | [] => none
    | c :: s2 =>
      if eqCI c 'i' ∨ eqCI c 'í' then
        match s2 with
        | [] => none
        | a :: s3 =>
          if eqCI a 'a' then
            let w1 := (s3.takeWhile isWsC).length
            if headIs (s3.drop w1) '/' then
              let s4 := s3.drop (w1 + 1)
              let w2 := (s4.takeWhile isWsC).length
              if startsWithCI "Raza".data (s4.drop w2) then some (9 + w1 + 1 + w2 + 4)
              else none
            else none
          else none
      else none
  else none

/-- Case-insensitive literal occurrence at position `i`. -/
def litCIAt (lit : Txt) (t : Txt) (i : ℕ) : Option ℕ :=
  if startsWithCI lit (t.drop i) then some lit.length else none

/-- `\bGastos\b` at position `i`. -/
def gastosWordAt (t : Txt) (i : ℕ) : Option ℕ :=
  if wordCIAt "Gastos".data t i then some 6 else none

/-- `parser.parse_items`: the text-heuristic line-item extractor.  Returns the
empty list when the "Categoría/Raza" header or the "Importe Bruto:" label is
missing, or the label starts no later than the header match ends; otherwise
isolates the block (truncated before a `Gastos` word), splits it into
stripped non-empty lines after the header line, merges physical lines into
logical rows and processes each row. -/
def parse_items (text : Txt) : List ItemHacienda :=
  match firstMatchFrom catRazaAt text 0,
      firstMatchFrom (litCIAt "Importe Bruto:".data) text 0 with
  | some se0, some se1 =>
    if se1.1 ≤ se0.2 then []
    else
      let between := sliceTxt text se0.1 se1.1
      let block := match firstMatchFrom gastosWordAt between 0 with
        | some g => between.take g.1
        | none => between
      let lines := cleanLines block
      match lines.findIdx? (fun ln => (firstMatchFrom catRazaAt ln 0).isSome) with
      | none => []
      | some hidx => (mergeRows [] (lines.drop (hidx + 1))).filterMap processRow
  | _, _ => []

/-! ### `parser.parse_totales` -/

/-- Match at position `i` of `label` followed by `\s*\$?\s*` and the money
group `([0-9][0-9,]*\.[0-9]{2})` (exactly two decimals, no trailing
boundary); returns the group text. -/
def totalMoneyAt (label : Txt) (t : Txt) (i : ℕ) : Option Txt :=
  if startsWithCI label (t.drop i) then
    let s := t.drop (i + label.length)
    let w1 := (s.takeWhile isWsC).length
    let dl := if headIs (s.drop w1) '$' then 1 else 0
    let s2 := s.drop (w1 + dl)
    let w2 := (s2.takeWhile isWsC).length
    match s2.drop w2 with
    | [] => none
    | c :: rest =>
      if c.isDigit then
        let k := (rest.takeWhile isDigitComma).length
        match rest.drop k with
        | [] => none
        | dot :: r2 =>
          if dot = '.' then
            match r2 with
            | d1 :: d2 :: _ =>
              if d1.isDigit ∧ d2.isDigit then
                some ((c :: rest.take k) ++ dot :: d1 :: [d2])
              else none
            | _ => none
          else none
      else none
  else none

/-- One labelled total: the money value at the leftmost match of the
label/value pattern, or zero when the pattern is absent. -/
def money_after (label : Txt) (text : Txt) : ℚ :=
  match findFirstGroup (totalMoneyAt label) text with
  | some g => (parse_money g).getD 0
  | none => 0

/-- The five extracted totals of `parser.parse_totales`. -/
structure Totales where
  importe_bruto : ℚ
  iva_bruto : ℚ
  total_gastos : ℚ
  iva_gastos : ℚ
  importe_neto : ℚ
deriving DecidableEq, Repr

/-- `parser.parse_totales`: five independent labelled searches. -/
def parse_totales (text : Txt) : Totales :=
  ⟨money_after "Importe Bruto:".data text,
   money_after "IVA s/Bruto:".data text,
   money_after "Total Gastos:".data text,
   money_after "IVA s/Gastos:".data text,
   money_after "Importe Neto:".data text⟩

/-! ### `parser.parse_gastos` -/

def headIsDigit : Txt → Bool
  | c :: _ => c.isDigit
  | [] => false

/-- Match of `Gastos\s+.*?\n(.*?)\nImporte Bruto:` (DOTALL) with "Gastos" at
position `p`: the greedy `\s+` prefers the longest whitespace run `w`, the
first lazy `.*?\n` then stops at the first newline, and the lazy group ends
at the first newline followed by the label; returns the group text. -/
def gastosBlockAt (t : Txt) (p : ℕ) : Option Txt :=
  if startsWithCI "Gastos".data (t.drop p) then
    let wmax := ((t.drop (p + 6)).takeWhile isWsC).length
    (List.range wmax).findSome? fun j =>
      let w := wmax - j
      match (List.range (t.length + 1 - (p + 6 + w))).findSome? (fun d =>
          if headIs (t.drop (p + 6 + w + d)) '\n' then some (p + 6 + w + d) else none) with
      | none => none
      | some q1 =>
        match (List.range (t.length + 1 - (q1 + 1))).findSome? (fun d =>
            if headIs (t.drop (q1 + 1 + d)) '\n' ∧
                startsWithCI "Importe Bruto:".data (t.drop (q1 + 1 + d + 1)) then
              some (q1 + 1 + d)
            else none) with
        | none => none
        | some r => some (sliceTxt t (q1 + 1) r)
  else none

/-- Leftmost match of the expense-block pattern. -/
def findGastosBlock (t : Txt) : Option Txt :=
  (List.range (t.length + 1)).findSome? fun p => gastosBlockAt t p

/-- `re.sub(r"\s+\d.*$", "", ln).strip() or "Gasto"`: truncate at the first
whitespace run that is followed by a digit (the lines carry no newline, so
the match runs to the end), strip, and default to "Gasto" when empty. -/
def conceptoOfLine (ln : Txt) : Txt :=
  let cut := (List.range (ln.length + 1)).findSome? fun i =>
    let s := ln.drop i
    match s with
    | c :: _ =>
      if isWsC c ∧ headIsDigit (s.drop ((s.takeWhile isWsC).length)) then some i else none
    | [] => none
  let base := match cut with
    | some i => stripWs (ln.take i)
    | none => stripWs ln
  if base.isEmpty then "Gasto".data else base

/-- Processing of one non-empty expense line: with two or more monetary
tokens the amount and VAT amount are the last two; with exactly one it is
the amount and the VAT amount is absent; with none the line yields no
expense. -/
def gastoOfLine (ln : Txt) : Option Gasto :=
  let monies := money_tokens ln
  if 2 ≤ monies.length then
    some ⟨conceptoOfLine ln, none, none,
      (parse_money (monies.getD (monies.length - 2) [])).getD 0,
      detectIvaPct ln,
      some ((parse_money (monies.getD (monies.length - 1) [])).getD 0)⟩
  else if monies.length = 1 then
    some ⟨conceptoOfLine ln, none, none,
      (parse_money (monies.getD 0 [])).getD 0, detectIvaPct ln, none⟩
  else none

/-- `parser.parse_gastos`: isolate the expense block and process each
stripped non-empty line. -/
def parse_gastos (text : Txt) : List Gasto :=
  match findGastosBlock text with
  | none => []
  | some block => (cleanLines block).filterMap gastoOfLine

/-! ### `parser.parse_retenciones` -/

/-- The common pattern tail `\s*[:\-]?\s*\$?\s*([0-9\.,]+)`: returns the
consumed length and the captured group. -/
def retTail (s : Txt) : Option (ℕ × Txt) :=
  let w1 := (s.takeWhile isWsC).length
  let s1 := s.drop w1
  let pl := if headIs s1 ':' ∨ headIs s1 '-' then 1 else 0
  let s2 := s1.drop pl
  let w2 := (s2.takeWhile isWsC).length
  let s3 := s2.drop w2
  let dl := if headIs s3 '$' then 1 else 0
  let s4 := s3.drop dl
  let w3 := (s4.takeWhile isWsC).length
  let g := (s4.drop w3).takeWhile (fun c => c.isDigit ∨ c = '.' ∨ c = ',')
  if 1 ≤ g.length then some (w1 + pl + w2 + dl + w3 + g.length, g) else none

/-- `\.?` (greedy, with back-off) followed by a continuation. -/
def dotOptThen (f : Txt → Option (ℕ × Txt)) (s : Txt) : Option (ℕ × Txt) :=
  match s with
  | c :: rest =>
    if c = '.' then
      match f rest with
      | some lg => some (1 + lg.1, lg.2)
      | none => f s
    else f s
  | [] => f s

/-- `\w*` (greedy, giving characters back) followed by a continuation. -/
def wStarThen (f : Txt → Option (ℕ × Txt)) (s : Txt) : Option (ℕ × Txt) :=
  let wlen := (s.takeWhile isWordC).length
  (List.range (wlen + 1)).findSome? fun j =>
    let k := wlen - j
    (f (s.drop k)).map fun lg => (k + lg.1, lg.2)

/-- `Ret\.?\s*Gananc\w*\s*[:\-]?\s*\$?\s*([0-9\.,]+)` at position `i`. -/
def ret1At (t : Txt) (i : ℕ) : Option (ℕ × Txt) :=
  let s := t.drop i
  if startsWithCI "Ret".data s then
    (dotOptThen (fun s2 =>
      let w := (s2.takeWhile isWsC).length
      let s3 := s2.drop w
      if startsWithCI "Gananc".data s3 then
        (wStarThen retTail (s3.drop 6)).map fun lg => (w + 6 + lg.1, lg.2)
      else none) (s.drop 3)).map fun lg => (3 + lg.1, lg.2)
  else none

/-- `Ret\.?\s*Imp\.?\s*Nacion\w*\s*[:\-]?\s*\$?\s*([0-9\.,]+)` at `i`. -/
def ret2At (t : Txt) (i : ℕ) : Option (ℕ × Txt) :=
  let s := t.drop i
  if startsWithCI "Ret".data s then
    (dotOptThen (fun s2 =>
      let w := (s2.takeWhile isWsC).length
      let s3 := s2.drop w
      if startsWithCI "Imp".data s3 then
        (dotOptThen (fun s4 =>
          let w2 := (s4.takeWhile isWsC).length
          let s5 := s4.drop w2
          if startsWithCI "Nacion".data s5 then
            (wStarThen retTail (s5.drop 6)).map fun lg => (w2 + 6 + lg.1, lg.2)
          else none) (s3.drop 3)).map fun lg => (w + 3 + lg.1, lg.2)
      else none) (s.drop 3)).map fun lg => (3 + lg.1, lg.2)
  else none

/-- `Imp\.?\s*Nacion\w*\s*Ret\.?\s*[:\-]?\s*\$?\s*([0-9\.,]+)` at `i`. -/
def ret3At (t : Txt) (i : ℕ) : Option (ℕ × Txt) :=
  let s := t.drop i
  if startsWithCI "Imp".data s then
    (dotOptThen (fun s2 =>
      let w := (s2.takeWhile isWsC).length
      let s3 := s2.drop w
      if startsWithCI "Nacion".data s3 then
        (wStarThen (fun s4 =>
          let w2 := (s4.takeWhile isWsC).length
          let s5 := s4.drop w2
          if startsWithCI "Ret".data s5 then
            (dotOptThen retTail (s5.drop 3)).map fun lg => (w2 + 3 + lg.1, lg.2)
          else none) (s3.drop 6)).map fun lg => (w + 6 + lg.1, lg.2)
      else none) (s.drop 3)).map fun lg => (3 + lg.1, lg.2)
  else none

/-- `re.finditer` collecting the captured groups. -/
def scanAllG (m : Txt → ℕ → Option (ℕ × Txt)) (t : Txt) : ℕ → ℕ → List Txt
  | _, 0 => []
  | i, fuel + 1 =>
    match (List.range (t.length + 1 - i)).findSome? (fun d =>
        (m t (i + d)).map fun lg => (i + d, lg.1, lg.2)) with
    | none => []
    | some slg => slg.2.2 :: scanAllG m t (max (slg.1 + slg.2.1) (slg.1 + 1)) fuel

def allGroups (m : Txt → ℕ → Option (ℕ × Txt)) (t : Txt) : List Txt :=
  scanAllG m t 0 (t.length + 1)

def retLabelGanancias : Txt := "Ret. Ganancias".data

def retLabelNacionales : Txt := "Ret. Imp. Nacionales".data

/-- All pattern matches of `parse_retenciones` with their labels and parsed
amounts (`parse_money(...) or 0.0`), in pattern order. -/
def rawRetenciones (text : Txt) : List (Txt × ℚ) :=
  ((allGroups ret1At text).map fun g => (retLabelGanancias, (parse_money g).getD 0)) ++
  ((allGroups ret2At text).map fun g => (retLabelNacionales, (parse_money g).getD 0)) ++
  ((allGroups ret3At text).map fun g => (retLabelNacionales, (parse_money g).getD 0))

/-- One step of the insertion-ordered dictionary aggregation
(`agg[k] = agg.get(k, 0.0) + v`). -/
def upsert (acc : List (Txt × ℚ)) (kv : Txt × ℚ) : List (Txt × ℚ) :=
  if (acc.map Prod.fst).contains kv.1 then
    acc.map fun p => if p.1 = kv.1 then (p.1, p.2 + kv.2) else p
  else acc ++ [kv]

/-- `parser.parse_retenciones`: collect the nonzero match amounts of the
three patterns and aggregate them by label, preserving first-occurrence
order. -/
def parse_retenciones (text : Txt) : List (Txt × ℚ) :=
  ((rawRetenciones text).filter (fun p => ¬ p.2 = 0)).foldl upsert []

/-- Sum of the amounts attached to label `l`. -/
def sumVals (l : Txt) (xs : List (Txt × ℚ)) : ℚ :=
  ((xs.filter (fun p => p.1 = l)).map Prod.snd).sum

/-- The input text of the line-item extraction scenario (spec §8). -/
def c2text : Txt :=
  "Categoría/Raza\nNovillo 50 Cabeza 450.00 95,000.00 10.50 9,975.00\nImporte Bruto: $ 95,000.00".data

/-! ## Theorems -/

theorem startsWithTxt_iff (n l : Txt) :
    startsWithTxt n l = true ↔ ∃ q, l = n ++ q := by
  induction n generalizing l with
  | nil => simp [startsWithTxt]
  | cons a as ih =>
    cases l with
    | nil => simp [startsWithTxt]
    | cons b bs =>
      simp only [startsWithTxt, Bool.and_eq_true, decide_eq_true_eq, ih,
        List.cons_append, List.cons.injEq]
      constructor
      · rintro ⟨rfl, q, rfl⟩; exact ⟨q, rfl, rfl⟩
      · rintro ⟨q, rfl, rfl⟩; exact ⟨rfl, q, rfl⟩

theorem hasSub_iff (n h : Txt) :
    hasSub n h = true ↔ ∃ p q, h = p ++ (n ++ q) := by
  induction h with
  | nil =>
    simp only [hasSub, List.isEmpty_iff]
    constructor
    · rintro rfl; exact ⟨[], [], rfl⟩
    · rintro ⟨p, q, hpq⟩
      rcases List.append_eq_nil.mp hpq.symm with ⟨-, h2⟩
      exact (List.append_eq_nil.mp h2).1
  | cons c cs ih =>
    simp only [hasSub, Bool.or_eq_true, startsWithTxt_iff, ih]
    constructor
    · rintro (⟨q, hq⟩ | ⟨p, q, rfl⟩)
      · exact ⟨[], q, by simpa using hq⟩
      · exact ⟨c :: p, q, rfl⟩
    · rintro ⟨p, q, hpq⟩
      cases p with
      | nil => exact Or.inl ⟨q, by simpa using hpq⟩
      | cons x xs =>
        right
        rcases List.cons_eq_cons.mp hpq with ⟨-, rfl⟩
        exact ⟨xs, q, rfl⟩

/-- Substring containment transported along a character map. -/
theorem hasSub_map (f : Char → Char) (n h : Txt) (hn : hasSub n h = true) :
    hasSub (n.map f) (h.map f) = true := by
  rcases (hasSub_iff n h).mp hn with ⟨p, q, rfl⟩
  exact (hasSub_iff _ _).mpr ⟨p.map f, q.map f, by simp⟩

/-- A substring match for a concatenation yields one for its first part. -/
theorem hasSub_of_append {n₁ n₂ h : Txt} (hh : hasSub (n₁ ++ n₂) h = true) :
    hasSub n₁ h = true := by
  rcases (hasSub_iff _ _).mp hh with ⟨p, q, rfl⟩
  exact (hasSub_iff _ _).mpr ⟨p, n₂ ++ q, by simp⟩

/-- C5: `detectar_ajuste` is a pure function of the upper-cased text.  Without
the keyword "AJUSTE" it returns a non-adjustment with direction and kind unset;
with it, the direction is credit when a credit keyword occurs, else debit when a
debit keyword occurs, else unset, and the kind is physical when an
"AJUSTE FÍSICO"/"AJUSTE FISICO" phrase occurs, else monetary when an
"AJUSTE FINANCIERO"/"AJUSTE MONETARIO" phrase occurs, else unset.  In
particular any text containing "AJUSTE FÍSICO" and "CRÉDITO" yields
an adjustment with direction credit, kind physical, sign multiplier −1 and
affects-physical-quantities true. -/
theorem detectar_ajuste_spec (texto : Txt) :
    (hasSub "AJUSTE".data (texto.map upperC) = false →
      detectar_ajuste texto = ⟨false, none, none⟩) ∧
    (hasSub "AJUSTE".data (texto.map upperC) = true →
      (detectar_ajuste texto).es_ajuste = true ∧
      (detectar_ajuste texto).sentido =
        (if hasSub "CRÉDITO".data (texto.map upperC) = true ∨
            hasSub "CREDITO".data (texto.map upperC) = true then some Sentido.CREDITO
         else if hasSub "DÉBITO".data (texto.map upperC) = true ∨
            hasSub "DEBITO".data (texto.map upperC) = true then some Sentido.DEBITO
         else none) ∧
      (detectar_ajuste texto).tipo =
        (if hasSub "AJUSTE FÍSICO".data (texto.map upperC) = true ∨
            hasSub "AJUSTE FISICO".data (texto.map upperC) = true then some TipoAjuste.FISICO
         else if hasSub "AJUSTE FINANCIERO".data (texto.map upperC) = true ∨
            hasSub "AJUSTE MONETARIO".data (texto.map upperC) = true then
           some TipoAjuste.MONETARIO
         else none)) ∧
    (hasSub "AJUSTE FÍSICO".data texto = true → hasSub "CRÉDITO".data texto = true →
      detectar_ajuste texto = ⟨true, some Sentido.CREDITO, some TipoAjuste.FISICO⟩ ∧
      (detectar_ajuste texto).signo_montos = -1 ∧
      (detectar_ajuste texto).afecta_cabezas_kilos = true) := by
  refine ⟨fun hno => ?_, fun hyes => ?_, fun hfis hcred => ?_⟩
  · simp [detectar_ajuste, hno]
  · refine ⟨?_, ?_, ?_⟩ <;>
      · simp only [detectar_ajuste, hyes, Bool.not_true, Bool.false_eq_true, if_false,
          Bool.true_eq_false]
        split_ifs with h1 h2 <;> simp_all
  · have hfU : hasSub "AJUSTE FÍSICO".data (texto.map upperC) = true := by
      have := hasSub_map upperC _ _ hfis
      rwa [show ("AJUSTE FÍSICO".data.map upperC) = "AJUSTE FÍSICO".data by decide] at this
    have hcU : hasSub "CRÉDITO".data (texto.map upperC) = true := by
      have := hasSub_map upperC _ _ hcred
      rwa [show ("CRÉDITO".data.map upperC) = "CRÉDITO".data by decide] at this
    have hA : hasSub "AJUSTE".data (texto.map upperC) = true := by
      have : ("AJUSTE".data ++ " FÍSICO".data) = "AJUSTE FÍSICO".data := by decide
      exact hasSub_of_append (this ▸ hfU)
    have : detectar_ajuste texto = ⟨true, some Sentido.CREDITO, some TipoAjuste.FISICO⟩ := by
      simp [detectar_ajuste, hA, hcU, hfU]
    exact ⟨this, by rw [this]; rfl, by rw [this]; rfl⟩

/-- C5 witness: a concrete physical-credit adjustment text. -/
theorem detectar_ajuste_spec_witness :
    detectar_ajuste "AJUSTE FÍSICO POR CRÉDITO".data =
        ⟨true, some Sentido.CREDITO, some TipoAjuste.FISICO⟩ ∧
      (detectar_ajuste "AJUSTE FÍSICO POR CRÉDITO".data).signo_montos = -1 ∧
      (detectar_ajuste "AJUSTE FÍSICO POR CRÉDITO".data).afecta_cabezas_kilos = true :=
  (detectar_ajuste_spec "AJUSTE FÍSICO POR CRÉDITO".data).2.2 (by decide) (by decide)

/-- C6 counterexample: the input "IVA resp." contains none of "Monotributo",
"Exento", "Responsable", "Inscripto", yet the mapper returns "RI" (through the
`IVA`/`RESP` fallback clause of the code), not the empty string as claimed. -/
theorem condicion_iva_abreviar_cex :
    condicion_iva_abreviar "IVA resp.".data = "RI".data ∧
    hasSub "Monotributo".data "IVA resp.".data = false ∧
    hasSub "Exento".data "IVA resp.".data = false ∧
    hasSub "Responsable".data "IVA resp.".data = false ∧
    hasSub "Inscripto".data "IVA resp.".data = false ∧
    condicion_iva_abreviar "IVA resp.".data ≠ ([] : Txt) := by
  decide

/-- C6 (amended): `condicion_iva_abreviar` is a pure function of the raw text.
It upper-cases the text and tests substrings in order: "MONOTRIB" → "MT",
else "EXENT" → "EX", else "RESPONSABLE" and "INSCRIP" → "RI", else the
fallback "IVA" and "RESP" → "RI", else the empty string.  In particular any
input containing "Monotributo" maps to "MT". -/
theorem condicion_iva_abreviar_spec (texto : Txt) :
    (hasSub "MONOTRIB".data (texto.map upperC) = true →
      condicion_iva_abreviar texto = "MT".data) ∧
    (hasSub "MONOTRIB".data (texto.map upperC) = false →
     hasSub "EXENT".data (texto.map upperC) = true →
      condicion_iva_abreviar texto = "EX".data) ∧
    (hasSub "MONOTRIB".data (texto.map upperC) = false →
     hasSub "EXENT".data (texto.map upperC) = false →
     hasSub "RESPONSABLE".data (texto.map upperC) = true →
     hasSub "INSCRIP".data (texto.map upperC) = true →
      condicion_iva_abreviar texto = "RI".data) ∧
    (hasSub "MONOTRIB".data (texto.map upperC) = false →
     hasSub "EXENT".data (texto.map upperC) = false →
     ¬ (hasSub "RESPONSABLE".data (texto.map upperC) = true ∧
        hasSub "INSCRIP".data (texto.map upperC) = true) →
     hasSub "IVA".data (texto.map upperC) = true →
     hasSub "RESP".data (texto.map upperC) = true →
      condicion_iva_abreviar texto = "RI".data) ∧
    (hasSub "MONOTRIB".data (texto.map upperC) = false →
     hasSub "EXENT".data (texto.map upperC) = false →
     ¬ (hasSub "RESPONSABLE".data (texto.map upperC) = true ∧
        hasSub "INSCRIP".data (texto.map upperC) = true) →
     ¬ (hasSub "IVA".data (texto.map upperC) = true ∧
        hasSub "RESP".data (texto.map upperC) = true) →
      condicion_iva_abreviar texto = []) ∧
    (hasSub "Monotributo".data texto = true →
      condicion_iva_abreviar texto = "MT".data) := by
  refine ⟨fun h1 => ?_, fun h1 h2 => ?_, fun h1 h2 h3 h4 => ?_,
    fun h1 h2 h3 h4 h5 => ?_, fun h1 h2 h3 h4 => ?_, fun hraw => ?_⟩
  · simp [condicion_iva_abreviar, h1]
  · simp [condicion_iva_abreviar, h1, h2]
  · simp [condicion_iva_abreviar, h1, h2, h3, h4]
  · simp only [condicion_iva_abreviar, h1, h2, h4, h5, Bool.false_eq_true, if_false, and_self,
      if_true]
    rw [if_neg h3]
  · simp only [condicion_iva_abreviar, h1, h2, Bool.false_eq_true, if_false]
    rw [if_neg h3, if_neg h4]
  · have hU : hasSub "MONOTRIBUTO".data (texto.map upperC) = true := by
      have := hasSub_map upperC _ _ hraw
      rwa [show ("Monotributo".data.map upperC) = "MONOTRIBUTO".data by decide] at this
    have h1 : hasSub "MONOTRIB".data (texto.map upperC) = true := by
      have : ("MONOTRIB".data ++ "UTO".data) = "MONOTRIBUTO".data := by decide
      exact hasSub_of_append (this ▸ hU)
    simp [condicion_iva_abreviar, h1]

/-- C6 witness: a concrete monotax condition string. -/
theorem condicion_iva_abreviar_spec_witness :
    condicion_iva_abreviar "Monotributo Social".data = "MT".data :=
  (condicion_iva_abreviar_spec "Monotributo Social".data).2.2.2.2.2 (by decide)

/-- On a text with no newline neither number-joining substitution can match
(their whitespace run must contain a newline). -/
theorem sub1Match_eq_none {t : Txt} (h : '\n' ∉ t) : sub1Match t = none := by
  cases t with
  | nil => rfl
  | cons c cs =>
    unfold sub1Match
    by_cases hd : c.isDigit
    · simp only [hd, if_true]
      cases hdrop : cs.drop (cs.takeWhile isDigitComma).length with
      | nil => rfl
      | cons x rest =>
        by_cases hx : x = '.'
        · have hcont : '\n' ∉ rest.takeWhile isWsC := by
            intro hmem
            have h1 : '\n' ∈ rest := List.takeWhile_subset _ hmem
            have h2 : '\n' ∈ cs.drop (cs.takeWhile isDigitComma).length := by
              rw [hdrop]; exact List.mem_cons_of_mem _ h1
            exact h (List.mem_cons_of_mem _ (List.mem_of_mem_drop h2))
          simp [hx, hcont]
        · simp [hx]
    · simp [hd]

theorem sub2Match_eq_none {t : Txt} (h : '\n' ∉ t) : sub2Match t = none := by
  cases t with
  | nil => rfl
  | cons c cs =>
    unfold sub2Match
    by_cases hd : c.isDigit
    · simp only [hd, if_true]
      cases hdrop : cs.drop (cs.takeWhile isDigitComma).length with
      | nil => rfl
      | cons x rest =>
        cases rest with
        | nil => rfl
        | cons d rest' =>
          by_cases hx : x = '.' ∧ d.isDigit
          · have hcont : '\n' ∉ rest'.takeWhile isWsC := by
              intro hmem
              have h1 : '\n' ∈ rest' := List.takeWhile_subset _ hmem
              have h2 : '\n' ∈ cs.drop (cs.takeWhile isDigitComma).length := by
                rw [hdrop]
                exact List.mem_cons_of_mem _ (List.mem_cons_of_mem _ h1)
              exact h (List.mem_cons_of_mem _ (List.mem_of_mem_drop h2))
            simp [hx, hcont]
          · simp [hx]
    · simp [hd]

/-- The substitution scan is the identity when the matcher never fires on any
suffix (shown here for matchers that need a newline, on newline-free text). -/
theorem subJoinGo_id_of_no_nl (m : Txt → Option (Txt × Txt × ℕ))
    (hm : ∀ s : Txt, '\n' ∉ s → m s = none) :
    ∀ (fuel : ℕ) (t : Txt), '\n' ∉ t → subJoinGo m fuel t = t := by
  intro fuel
  induction fuel with
  | zero => intro t _; rfl
  | succ fuel ih =>
    intro t ht
    cases t with
    | nil => simp [subJoinGo, hm [] ht]
    | cons c cs =>
      have hcs : '\n' ∉ cs := fun hc => ht (List.mem_cons_of_mem _ hc)
      simp [subJoinGo, hm _ ht, ih cs hcs]

theorem collapseSp_cons_sp {c : Char} (cs : Txt) (hsp : isSpTab c = true) :
    collapseSp true (c :: cs) = collapseSp true cs ∧
    collapseSp false (c :: cs) = ' ' :: collapseSp true cs := by
  constructor <;> simp [collapseSp, hsp]

theorem collapseSp_cons_not {c : Char} (cs : Txt) (b : Bool) (hsp : isSpTab c = false) :
    collapseSp b (c :: cs) = c :: collapseSp false cs := by
  cases b <;> simp [collapseSp, hsp]

theorem collapseSp_no_nl {t : Txt} (b : Bool) (h : '\n' ∉ t) :
    '\n' ∉ collapseSp b t := by
  induction t generalizing b with
  | nil => simp [collapseSp]
  | cons c cs ih =>
    have hcs : '\n' ∉ cs := fun hc => h (List.mem_cons_of_mem _ hc)
    have hc : c ≠ '\n' := fun hc => h (hc ▸ List.mem_cons_self _ _)
    by_cases hsp : isSpTab c
    · cases b with
      | true => rw [(collapseSp_cons_sp cs hsp).1]; exact ih _ hcs
      | false =>
        rw [(collapseSp_cons_sp cs hsp).2]
        intro hmem
        rcases List.mem_cons.mp hmem with h1 | h1
        · exact absurd h1.symm (by decide)
        · exact ih _ hcs h1
    · rw [collapseSp_cons_not cs b (by simpa using hsp)]
      intro hmem
      rcases List.mem_cons.mp hmem with h1 | h1
      · exact hc h1.symm
      · exact ih _ hcs h1

/-- Collapsing horizontal whitespace is idempotent (three mutually inductive
forms over the in-run flag). -/
theorem collapseSp_idem (t : Txt) :
    collapseSp true (collapseSp true t) = collapseSp true t ∧
    collapseSp false (collapseSp true t) = collapseSp true t ∧
    collapseSp false (collapseSp false t) = collapseSp false t := by
  induction t with
  | nil => simp [collapseSp]
  | cons c cs ih =>
    by_cases hsp : isSpTab c
    · refine ⟨?_, ?_, ?_⟩
      · rw [(collapseSp_cons_sp cs hsp).1]; exact ih.1
      · rw [(collapseSp_cons_sp cs hsp).1]; exact ih.2.1
      · rw [(collapseSp_cons_sp cs hsp).2,
          (collapseSp_cons_sp (collapseSp true cs) (by decide)).2, ih.1]
    · have hsp' : isSpTab c = false := by simpa using hsp
      refine ⟨?_, ?_, ?_⟩ <;>
        rw [collapseSp_cons_not cs _ hsp', collapseSp_cons_not _ _ hsp', ih.2.2]

/-- C3 counterexample: `normalize_text` is not idempotent.  On `"1.\n2.\n3"`
the first pass joins only the first break (the scan resumes after the match),
and a second pass joins the remaining one. -/
theorem normalize_text_not_idempotent :
    normalize_text "1.\n2.\n3".data = "1.2.\n3".data ∧
    normalize_text (normalize_text "1.\n2.\n3".data) = "1.2.3".data ∧
    normalize_text (normalize_text "1.\n2.\n3".data) ≠ normalize_text "1.\n2.\n3".data := by
  refine ⟨by decide, by decide, by decide⟩

/-- C3 (amended): `normalize_text` is idempotent on every input that contains
no newline; in general a second application can join number fragments whose
match was skipped by the first pass. -/
theorem normalize_text_idempotent_no_nl (t : Txt) (h : '\n' ∉ t) :
    normalize_text (normalize_text t) = normalize_text t := by
  have hs1 : ∀ s : Txt, '\n' ∉ s → sub1 s = s := fun s hs =>
    subJoinGo_id_of_no_nl _ (fun u hu => sub1Match_eq_none hu) _ _ hs
  have hs2 : ∀ s : Txt, '\n' ∉ s → sub2 s = s := fun s hs =>
    subJoinGo_id_of_no_nl _ (fun u hu => sub2Match_eq_none hu) _ _ hs
  have hn : normalize_text t = collapseSp false t := by
    unfold normalize_text
    rw [hs1 t h, hs2 t h]
  have hnc : '\n' ∉ collapseSp false t := collapseSp_no_nl false h
  rw [hn, normalize_text, hs1 _ hnc, hs2 _ hnc]
  exact (collapseSp_idem t).2.2

/-- C3 witness: idempotence on a concrete newline-free text. -/
theorem normalize_text_idempotent_no_nl_witness :
    normalize_text (normalize_text "a \t b  c".data) = normalize_text "a \t b  c".data :=
  normalize_text_idempotent_no_nl "a \t b  c".data (by decide)

/-- C2 counterexample: on the scenario text the extractor yields one item,
but its head count is 450 (the first integer after the "Cabeza" token — here
the integral part of the unit price), not 50 as claimed: the head-count
pattern `\bCabeza\s+(\d[\d,]*)` reads the number that follows the unit token,
while in this row the head count precedes it. -/
theorem parse_items_scenario_cex :
    ¬ (parse_items c2text =
      [⟨"Novillo".data, 50, 0, "Cabeza".data, 450, 95000,
        some (mkRat 1050 100), some 9975⟩]) := by
  decide

/-- C2 (amended): on the scenario text `parse_items` returns exactly one
LineItem with category "Novillo", unit "Cabeza", unit price 450.00, gross
amount 95000.00, VAT rate 10.50, VAT amount 9975.00 — and head count 450.00,
the number extracted after the unit token. -/
theorem parse_items_scenario :
    parse_items c2text =
      [⟨"Novillo".data, 450, 0, "Cabeza".data, 450, 95000,
        some (mkRat 1050 100), some 9975⟩] := by
  decide

/-- Leftmost-match search fails exactly when the positional matcher fails at
every position of the text (positions beyond the end carry the empty
suffix). -/
theorem firstMatchFrom_eq_none {m : Txt → ℕ → Option ℕ} {t : Txt}
    (h : ∀ i ≤ t.length, m t i = none) : firstMatchFrom m t 0 = none := by
  unfold firstMatchFrom
  rw [List.findSome?_eq_none_iff]
  intro d hd
  have : d ≤ t.length := by
    have := List.mem_range.mp hd
    omega
  simp [h d this]

/-- C7: when the "Categoría/Raza" header pattern matches nowhere, or the
"Importe Bruto:" label matches nowhere, or the leftmost label occurrence
starts no later than the end of the leftmost header match, `parse_items`
returns the empty sequence (and, being a total function, raises nothing). -/
theorem parse_items_missing_markers (text : Txt) :
    ((∀ i ≤ text.length, catRazaAt text i = none) → parse_items text = []) ∧
    ((∀ i ≤ text.length, litCIAt "Importe Bruto:".data text i = none) →
      parse_items text = []) ∧
    (∀ s0 e0 s1 e1, firstMatchFrom catRazaAt text 0 = some (s0, e0) →
      firstMatchFrom (litCIAt "Importe Bruto:".data) text 0 = some (s1, e1) →
      s1 ≤ e0 → parse_items text = []) := by
  refine ⟨fun h => ?_, fun h => ?_, fun s0 e0 s1 e1 h0 h1 hle => ?_⟩
  · unfold parse_items
    rw [firstMatchFrom_eq_none h]
  · unfold parse_items
    rw [firstMatchFrom_eq_none h]
    cases firstMatchFrom catRazaAt text 0 <;> rfl
  · unfold parse_items
    rw [h0, h1]
    simp [hle]

/-- C7 witness: a concrete text with no "Importe Bruto:" label. -/
theorem parse_items_missing_markers_witness :
    parse_items "Categoría/Raza\nNovillo 2 Cabeza 450.00".data = [] :=
  (parse_items_missing_markers _).2.1 (by decide)

/-- All successfully parsed monetary values are non-negative (the token
regexes admit no sign). -/
theorem parse_money_nonneg {s : Txt} {q : ℚ} (h : parse_money s = some q) : 0 ≤ q := by
  unfold parse_money at h
  simp only [] at h
  split at h
  · exact absurd h (by simp)
  · unfold floatOfTxt at h
    simp only [] at h
    split at h
    · split at h
      · exact absurd h (by simp)
      · rw [Option.some_inj.symm.mp rfl] at h
        cases h
        exact Rat.mkRat_nonneg (Int.natCast_nonneg _) _
    · split at h
      · cases h
        exact Rat.mkRat_nonneg (Int.natCast_nonneg _) _
      · exact absurd h (by simp)

theorem rowVals_nonneg (ln : Txt) : ∀ v ∈ rowVals ln, 0 ≤ v := by
  intro v hv
  rcases List.mem_filterMap.mp hv with ⟨tok, -, htok⟩
  exact parse_money_nonneg htok

theorem insertionSort_length (vals : List ℚ) :
    (List.insertionSort (· ≤ ·) vals).length = vals.length :=
  (List.perm_insertionSort _ _).length_eq

/-- Entries of the sorted list are entries of the original list. -/
theorem sortedGetD_mem {vals : List ℚ} {i : ℕ} (hi : i < vals.length) :
    (List.insertionSort (· ≤ ·) vals).getD i 0 ∈ vals := by
  have hi' : i < (List.insertionSort (· ≤ ·) vals).length := by
    rw [insertionSort_length]; exact hi
  rw [List.getD_eq_getElem?_getD, List.getElem?_eq_getElem hi', Option.getD_some]
  exact (List.perm_insertionSort _ vals).mem_iff.mp (List.getElem_mem hi')

/-- The sorted list is monotone in its indices. -/
theorem sortedGetD_le {vals : List ℚ} {i j : ℕ} (hij : i ≤ j) (hj : j < vals.length) :
    (List.insertionSort (· ≤ ·) vals).getD i 0 ≤
      (List.insertionSort (· ≤ ·) vals).getD j 0 := by
  have hj' : j < (List.insertionSort (· ≤ ·) vals).length := by
    rw [insertionSort_length]; exact hj
  have hi' : i < (List.insertionSort (· ≤ ·) vals).length := lt_of_le_of_lt hij hj'
  rw [List.getD_eq_getElem?_getD, List.getD_eq_getElem?_getD,
    List.getElem?_eq_getElem hi', List.getElem?_eq_getElem hj', Option.getD_some,
    Option.getD_some]
  have hs := List.sorted_insertionSort (· ≤ ·) vals
  simpa using hs.rel_get_of_le (a := ⟨i, hi'⟩) (b := ⟨j, hj'⟩) hij

/-- The last entry of the sorted list bounds every value from above. -/
theorem le_sortedLast {vals : List ℚ} {v : ℚ} (hv : v ∈ vals) :
    v ≤ (List.insertionSort (· ≤ ·) vals).getD (vals.length - 1) 0 := by
  have hv' : v ∈ List.insertionSort (· ≤ ·) vals :=
    (List.perm_insertionSort _ vals).mem_iff.mpr hv
  rcases List.mem_iff_getElem.mp hv' with ⟨i, hi, rfl⟩
  have hi' : i < vals.length := by rw [← insertionSort_length vals]; exact hi
  have h0 : (List.insertionSort (· ≤ ·) vals).getD i 0 =
      (List.insertionSort (· ≤ ·) vals)[i] := by
    rw [List.getD_eq_getElem?_getD, List.getElem?_eq_getElem hi, Option.getD_some]
  rw [← h0]
  exact sortedGetD_le (by omega) (by omega)

/-- The first entry of the sorted list bounds every value from below. -/
theorem sortedHead_le {vals : List ℚ} {v : ℚ} (hv : v ∈ vals) :
    (List.insertionSort (· ≤ ·) vals).getD 0 0 ≤ v := by
  have hv' : v ∈ List.insertionSort (· ≤ ·) vals :=
    (List.perm_insertionSort _ vals).mem_iff.mpr hv
  rcases List.mem_iff_getElem.mp hv' with ⟨i, hi, rfl⟩
  have hi' : i < vals.length := by rw [← insertionSort_length vals]; exact hi
  have h0 : (List.insertionSort (· ≤ ·) vals).getD i 0 =
      (List.insertionSort (· ≤ ·) vals)[i] := by
    rw [List.getD_eq_getElem?_getD, List.getElem?_eq_getElem hi, Option.getD_some]
  rw [← h0]
  exact sortedGetD_le (Nat.zero_le _) hi'

/-- C1: the sorted-value heuristic of the text extractor.  For every merged
row that `processRow` keeps: when a VAT rate was detected there are at least
two monetary values, the stored gross amount is the largest of them, the
stored VAT amount is the entry at index `length − 2` of the ascending sort
(the second largest) and lies between unit price and gross amount, and the
stored unit price is the smallest value when a third exists and `0`
otherwise; when no rate was detected there is at least one value, the gross
amount is the largest, the unit price is the smallest when a second value
exists and `0` otherwise; in every kept row gross ≥ VAT ≥ unit price.  Every
item of `parse_items` arises from `processRow` on some merged row. -/
theorem parse_items_sorted_values :
    (∀ ln item, processRow ln = some item →
      (∀ r : ℚ, item.iva_pct = some r →
        2 ≤ (rowVals ln).length ∧
        item.bruto ∈ rowVals ln ∧ (∀ v ∈ rowVals ln, v ≤ item.bruto) ∧
        (∃ w, item.iva_importe = some w ∧ w ∈ rowVals ln ∧
          w = (List.insertionSort (· ≤ ·) (rowVals ln)).getD ((rowVals ln).length - 2) 0 ∧
          item.precio ≤ w ∧ w ≤ item.bruto) ∧
        (3 ≤ (rowVals ln).length →
          item.precio ∈ rowVals ln ∧ ∀ v ∈ rowVals ln, item.precio ≤ v) ∧
        ((rowVals ln).length = 2 → item.precio = 0)) ∧
      (item.iva_pct = none →
        1 ≤ (rowVals ln).length ∧
        item.bruto ∈ rowVals ln ∧ (∀ v ∈ rowVals ln, v ≤ item.bruto) ∧
        item.iva_importe = none ∧
        (2 ≤ (rowVals ln).length →
          item.precio ∈ rowVals ln ∧ ∀ v ∈ rowVals ln, item.precio ≤ v) ∧
        ((rowVals ln).length = 1 → item.precio = 0)) ∧
      item.precio ≤ item.bruto) ∧
    (∀ text item, item ∈ parse_items text → ∃ ln, processRow ln = some item) := by
  constructor
  · intro ln item h
    unfold processRow at h
    simp only [] at h
    cases hra : rowAmounts (detectIvaPct ln) (rowVals ln) with
    | none => rw [hra] at h; exact absurd h (by simp)
    | some pbi =>
      obtain ⟨p, b, io⟩ := pbi
      rw [hra] at h
      simp only [] at h
      split at h
      · exact absurd h (by simp)
      · split at h
        · exact absurd h (by simp)
        · have hitem := (Option.some_inj.mp h).symm
          subst hitem
          cases hiva : detectIvaPct ln with
          | some r =>
            rw [hiva] at hra
            unfold rowAmounts at hra
            simp only [] at hra
            split at hra
            · rename_i hlen2
              simp only [Option.some_inj, Prod.mk.injEq] at hra
              obtain ⟨hp, hb, hio⟩ := hra
              have hlen : (List.insertionSort (· ≤ ·) (rowVals ln)).length =
                  (rowVals ln).length := insertionSort_length _
              refine ⟨fun r' hr' => ?_, fun hnone => ?_, ?_⟩
              · have hbmem : b ∈ rowVals ln := by
                  rw [← hb, hlen]; exact sortedGetD_mem (by omega)
                have hble : ∀ v ∈ rowVals ln, v ≤ b := by
                  intro v hv; rw [← hb, hlen]; exact le_sortedLast hv
                have hwmem : (List.insertionSort (· ≤ ·) (rowVals ln)).getD
                    ((rowVals ln).length - 2) 0 ∈ rowVals ln :=
                  sortedGetD_mem (by omega)
                have hwb : (List.insertionSort (· ≤ ·) (rowVals ln)).getD
                    ((rowVals ln).length - 2) 0 ≤ b := by
                  rw [← hb, hlen]; exact sortedGetD_le (by omega) (by omega)
                have hpw : p ≤ (List.insertionSort (· ≤ ·) (rowVals ln)).getD
                    ((rowVals ln).length - 2) 0 := by
                  rw [← hp]
                  split
                  · rename_i h3; rw [hlen] at h3
                    exact sortedGetD_le (by omega) (by omega)
                  · exact rowVals_nonneg ln _ hwmem
                refine ⟨hlen2, hbmem, hble, ⟨_, by rw [← hio, hlen], hwmem, rfl, hpw, hwb⟩,
                  fun h3 => ?_, fun he2 => ?_⟩
                · constructor
                  · rw [← hp, if_pos (by rw [hlen]; omega)]
                    exact sortedGetD_mem (by omega)
                  · intro v hv
                    rw [← hp, if_pos (by rw [hlen]; omega)]
                    exact sortedHead_le hv
                · rw [← hp, if_neg (by rw [hlen]; omega)]
              · exact absurd hnone (by simp)
              · have hwmem : (List.insertionSort (· ≤ ·) (rowVals ln)).getD
                    ((List.insertionSort (· ≤ ·) (rowVals ln)).length - 2) 0 ∈ rowVals ln := by
                  rw [hlen]; exact sortedGetD_mem (by omega)
                have hwb : (List.insertionSort (· ≤ ·) (rowVals ln)).getD
                    ((List.insertionSort (· ≤ ·) (rowVals ln)).length - 2) 0 ≤ b := by
                  rw [← hb, hlen]; exact sortedGetD_le (by omega) (by omega)
                have hpw : p ≤ (List.insertionSort (· ≤ ·) (rowVals ln)).getD
                    ((List.insertionSort (· ≤ ·) (rowVals ln)).length - 2) 0 := by
                  rw [← hp]
                  split
                  · rename_i h3; rw [hlen] at h3
                    exact sortedGetD_le (by omega) (by omega)
                  · exact rowVals_nonneg ln _ hwmem
                exact le_trans hpw hwb
            · exact absurd hra (by simp)
          | none =>
            rw [hiva] at hra
            unfold rowAmounts at hra
            simp only [] at hra
            split at hra
            · rename_i hlen1
              simp only [Option.some_inj, Prod.mk.injEq] at hra
              obtain ⟨hp, hb, hio⟩ := hra
              have hlen : (List.insertionSort (· ≤ ·) (rowVals ln)).length =
                  (rowVals ln).length := insertionSort_length _
              have hbmem : b ∈ rowVals ln := by
                rw [← hb, hlen]; exact sortedGetD_mem (by omega)
              have hble : ∀ v ∈ rowVals ln, v ≤ b := by
                intro v hv; rw [← hb, hlen]; exact le_sortedLast hv
              have hpb : p ≤ b := by
                rw [← hp]
                split
                · rename_i h2; rw [hlen] at h2
                  rw [← hb, hlen]
                  exact sortedGetD_le (by omega) (by omega)
                · exact rowVals_nonneg ln _ hbmem
              refine ⟨fun r' hr' => absurd hr' (by simp), fun _ => ?_, hpb⟩
              refine ⟨hlen1, hbmem, hble, hio.symm, fun h2 => ?_, fun he1 => ?_⟩
              · constructor
                · rw [← hp, if_pos (by rw [hlen]; omega)]
                  exact sortedGetD_mem (by omega)
                · intro v hv
                  rw [← hp, if_pos (by rw [hlen]; omega)]
                  exact sortedHead_le hv
              · rw [← hp, if_neg (by rw [hlen]; omega)]
            · exact absurd hra (by simp)
  · intro text item hmem
    unfold parse_items at hmem
    split at hmem
    · split at hmem
      · exact absurd hmem (by simp)
      · simp only [] at hmem
        split at hmem
        · exact absurd hmem (by simp)
        · rcases List.mem_filterMap.mp hmem with ⟨ln, -, hln⟩
          exact ⟨ln, hln⟩
    · exact absurd hmem (by simp)

/-- C1 witness: the heuristic evaluated on the scenario row. -/
theorem parse_items_sorted_values_witness :
    2 ≤ (rowVals ("Novillo 50 Cabeza 450.00 95,000.00 10.50 9,975.00".data)).length ∧
    (95000 : ℚ) ∈ rowVals ("Novillo 50 Cabeza 450.00 95,000.00 10.50 9,975.00".data) ∧
    (∀ v ∈ rowVals ("Novillo 50 Cabeza 450.00 95,000.00 10.50 9,975.00".data),
      v ≤ (95000 : ℚ)) := by
  have h := (parse_items_sorted_values.1
    ("Novillo 50 Cabeza 450.00 95,000.00 10.50 9,975.00".data)
    ⟨"Novillo".data, 450, 0, "Cabeza".data, 450, 95000, some (mkRat 1050 100), some 9975⟩
    (by decide)).1 (mkRat 1050 100) rfl
  exact ⟨h.1, h.2.1, h.2.2.1⟩

/-- `findSome?` over `List.range` returns the value at the least position
that succeeds. -/
theorem findSome?_range_eq {α : Type} (f : ℕ → Option α) (n : ℕ) {i : ℕ} {g : α}
    (hin : i < n) (hi : f i = some g) (hb : ∀ j < i, f j = none) :
    (List.range n).findSome? f = some g := by
  induction n with
  | zero => omega
  | succ n ih =>
    rw [List.range_succ, List.findSome?_append]
    by_cases hlt : i < n
    · rw [ih hlt]; rfl
    · have : i = n := by omega
      subst this
      have hnone : (List.range i).findSome? f = none := by
        rw [List.findSome?_eq_none_iff]
        intro j hj
        exact hb j (List.mem_range.mp hj)
      rw [hnone]
      simp [List.findSome?, hi]

/-- A leftmost group search succeeds at the least matching position. -/
theorem findFirstGroup_eq {α : Type} (m : Txt → ℕ → Option α) (t : Txt) {i : ℕ} {g : α}
    (hile : i ≤ t.length) (hi : m t i = some g) (hb : ∀ j < i, m t j = none) :
    findFirstGroup m t = some g :=
  findSome?_range_eq (fun j => m t j) (t.length + 1) (by omega) hi hb

/-- C8: `parse_totales` performs the five independent labelled searches, and
each total is the parsed money group of the leftmost match of its
label/value pattern, or zero when the pattern matches nowhere; the function
is total (extraction never raises). -/
theorem parse_totales_spec (text : Txt) :
    parse_totales text =
      ⟨money_after "Importe Bruto:".data text,
       money_after "IVA s/Bruto:".data text,
       money_after "Total Gastos:".data text,
       money_after "IVA s/Gastos:".data text,
       money_after "Importe Neto:".data text⟩ ∧
    (∀ label : Txt,
      ((∀ i ≤ text.length, totalMoneyAt label text i = none) →
        money_after label text = 0) ∧
      (∀ i g, i ≤ text.length → totalMoneyAt label text i = some g →
        (∀ j < i, totalMoneyAt label text j = none) →
        money_after label text = (parse_money g).getD 0)) := by
  refine ⟨rfl, fun label => ⟨fun habs => ?_, fun i g hile hi hb => ?_⟩⟩
  · unfold money_after
    have : findFirstGroup (totalMoneyAt label) text = none := by
      unfold findFirstGroup
      rw [List.findSome?_eq_none_iff]
      intro j hj
      exact habs j (by simpa using Nat.lt_succ_iff.mp (List.mem_range.mp hj))
    rw [this]
  · unfold money_after
    rw [findFirstGroup_eq (totalMoneyAt label) text hile hi hb]

/-- C8 witness: the gross-amount label evaluated on a concrete text (a
present label at position 0, and an absent label). -/
theorem parse_totales_spec_witness :
    money_after "Importe Bruto:".data "Importe Bruto: $ 1,234.56 fin".data =
      (parse_money "1,234.56".data).getD 0 ∧
    money_after "Importe Neto:".data "Importe Bruto: $ 1,234.56 fin".data = 0 :=
  ⟨((parse_totales_spec "Importe Bruto: $ 1,234.56 fin".data).2
      "Importe Bruto:".data).2 0 "1,234.56".data (by decide) (by decide) (by omega),
   ((parse_totales_spec "Importe Bruto: $ 1,234.56 fin".data).2
      "Importe Neto:".data).1 (by decide)⟩

theorem length_filterMap_eq_length_filter {α β : Type} (f : α → Option β) (l : List α) :
    (l.filterMap f).length = (l.filter (fun a => (f a).isSome)).length := by
  induction l with
  | nil => rfl
  | cons a l ih => cases hfa : f a <;> simp [List.filterMap_cons, hfa, List.filter_cons, ih]

/-- C9 counterexample: a block whose single non-empty line carries no
monetary token produces no Expense at all, against "every non-empty line
becomes one Expense". -/
theorem parse_gastos_cex :
    findGastosBlock "Gastos x\nComision\nImporte Bruto:".data = some "Comision".data ∧
    cleanLines "Comision".data = ["Comision".data] ∧
    parse_gastos "Gastos x\nComision\nImporte Bruto:".data = [] := by
  refine ⟨by decide, by decide, by decide⟩

/-- C9 (amended): `parse_gastos` processes each stripped non-empty line of
the isolated expense block: a line with two or more monetary tokens yields
one Expense whose amount and VAT amount are the last two tokens, a line with
exactly one yields it as amount with VAT amount absent, and a line with none
is dropped; the concept label is the line truncated at the first whitespace
run followed by a digit (stripped; "Gasto" when empty) and the VAT rate is
the leftmost fixed rate literal.  The number of expenses equals the number
of block lines holding at least one monetary token. -/
theorem parse_gastos_spec (text : Txt) :
    (∀ block, findGastosBlock text = some block →
      parse_gastos text = (cleanLines block).filterMap gastoOfLine ∧
      (parse_gastos text).length =
        ((cleanLines block).filter (fun ln => ¬ (money_tokens ln).isEmpty)).length) ∧
    (findGastosBlock text = none → parse_gastos text = []) ∧
    (∀ ln : Txt,
      (money_tokens ln = [] → gastoOfLine ln = none) ∧
      (2 ≤ (money_tokens ln).length → gastoOfLine ln =
        some ⟨conceptoOfLine ln, none, none,
          (parse_money ((money_tokens ln).getD ((money_tokens ln).length - 2) [])).getD 0,
          detectIvaPct ln,
          some ((parse_money ((money_tokens ln).getD ((money_tokens ln).length - 1) [])).getD 0)⟩) ∧
      ((money_tokens ln).length = 1 → gastoOfLine ln =
        some ⟨conceptoOfLine ln, none, none,
          (parse_money ((money_tokens ln).getD 0 [])).getD 0, detectIvaPct ln, none⟩)) := by
  refine ⟨fun block hb => ⟨?_, ?_⟩, fun hn => ?_, fun ln => ⟨fun h0 => ?_, fun h2 => ?_,
    fun h1 => ?_⟩⟩
  · unfold parse_gastos
    rw [hb]
  · unfold parse_gastos
    rw [hb, length_filterMap_eq_length_filter]
    congr 1
    apply List.filter_congr
    intro ln _
    unfold gastoOfLine
    simp only []
    split
    · rename_i hl
      have hne : money_tokens ln ≠ [] := by intro he; rw [he] at hl; simp at hl
      simp [List.isEmpty_iff, hne]
    · split
      · rename_i hl
        have hne : money_tokens ln ≠ [] := by intro he; rw [he] at hl; simp at hl
        simp [List.isEmpty_iff, hne]
      · rename_i hl2 hl1
        have he : money_tokens ln = [] := List.length_eq_zero.mp (by omega)
        simp [he]
  · unfold parse_gastos
    rw [hn]
  · unfold gastoOfLine
    rw [h0]
    rfl
  · unfold gastoOfLine
    simp only []
    rw [if_pos h2]
  · unfold gastoOfLine
    simp only []
    rw [if_neg (by omega), if_pos h1]

/-- C9 witness: a concrete two-token expense line inside a block. -/
theorem parse_gastos_spec_witness :
    gastoOfLine "Flete 100.00 21.50".data =
      some ⟨conceptoOfLine "Flete 100.00 21.50".data, none, none,
        (parse_money ((money_tokens "Flete 100.00 21.50".data).getD
          ((money_tokens "Flete 100.00 21.50".data).length - 2) [])).getD 0,
        detectIvaPct "Flete 100.00 21.50".data,
        some ((parse_money ((money_tokens "Flete 100.00 21.50".data).getD
          ((money_tokens "Flete 100.00 21.50".data).length - 1) [])).getD 0)⟩ :=
  ((parse_gastos_spec "Flete 100.00 21.50".data).2.2
    "Flete 100.00 21.50".data).2.1 (by decide)

theorem sumVals_append (l : Txt) (xs ys : List (Txt × ℚ)) :
    sumVals l (xs ++ ys) = sumVals l xs + sumVals l ys := by
  unfold sumVals
  rw [List.filter_append, List.map_append, List.sum_append]

/-- Updating the amount of a key that is absent changes nothing. -/
theorem map_update_of_not_key {k : Txt} {v : ℚ} {acc : List (Txt × ℚ)}
    (hk : k ∉ acc.map Prod.fst) :
    (acc.map fun p => if p.1 = k then (p.1, p.2 + v) else p) = acc := by
  induction acc with
  | nil => rfl
  | cons a acc ih =>
    have ha : a.1 ≠ k := fun h => hk (by simp [h])
    have htl : k ∉ acc.map Prod.fst := fun h => hk (by simp [h])
    simp [ha, ih htl]

theorem sumVals_map_add {k : Txt} {v : ℚ} {l : Txt} (acc : List (Txt × ℚ))
    (hnd : (acc.map Prod.fst).Nodup) (hk : k ∈ acc.map Prod.fst) :
    sumVals l (acc.map fun p => if p.1 = k then (p.1, p.2 + v) else p) =
      sumVals l acc + (if l = k then v else 0) := by
  induction acc with
  | nil => simp at hk
  | cons a acc ih =>
    rw [List.map_cons, List.nodup_cons] at hnd
    by_cases ha : a.1 = k
    · have htl : k ∉ acc.map Prod.fst := ha ▸ hnd.1
      rw [List.map_cons, if_pos ha, map_update_of_not_key htl]
      unfold sumVals
      by_cases hl : l = k
      · have hal : (a.1 = l) := by rw [hl, ha]
        simp only [List.filter_cons, hal, hl]
        simp
        ring
      · have hal : ¬ (a.1 = l) := fun h => hl (by rw [← h, ha])
        simp [List.filter_cons, hal, hl]
    · have hk' : k ∈ acc.map Prod.fst := by
        rcases List.mem_cons.mp hk with h | h
        · exact absurd h.symm ha
        · exact h
      rw [List.map_cons, if_neg ha]
      unfold sumVals
      have hrec := ih hnd.2 hk'
      unfold sumVals at hrec
      by_cases hal : a.1 = l
      · simp only [List.filter_cons, hal]
        simp only [decide_True, if_true, List.map_cons, List.sum_cons, hrec]
        ring
      · simp only [List.filter_cons, hal]
        simp only [decide_False, Bool.false_eq_true, if_false, hrec]

theorem sumVals_upsert (l : Txt) (acc : List (Txt × ℚ)) (kv : Txt × ℚ)
    (hnd : (acc.map Prod.fst).Nodup) :
    sumVals l (upsert acc kv) = sumVals l acc + (if l = kv.1 then kv.2 else 0) := by
  unfold upsert
  by_cases hc : (acc.map Prod.fst).contains kv.1
  · rw [if_pos hc]
    exact sumVals_map_add acc hnd (by simpa using hc)
  · rw [if_neg hc, sumVals_append]
    congr 1
    unfold sumVals
    rw [List.filter_cons]
    by_cases hl : l = kv.1
    · simp [hl]
    · have : ¬ (kv.1 = l) := fun h => hl h.symm
      simp [this, hl]

theorem keys_upsert (acc : List (Txt × ℚ)) (kv : Txt × ℚ) :
    (upsert acc kv).map Prod.fst =
      (if kv.1 ∈ acc.map Prod.fst then acc.map Prod.fst
       else acc.map Prod.fst ++ [kv.1]) := by
  unfold upsert
  by_cases hc : (acc.map Prod.fst).contains kv.1
  · rw [if_pos hc, if_pos (by simpa using hc), List.map_map]
    apply List.map_congr_left
    intro p _
    by_cases hp : p.1 = kv.1 <;> simp [hp]
  · rw [if_neg hc, if_neg (by simpa using hc)]
    simp

theorem foldl_upsert_spec (xs : List (Txt × ℚ)) :
    ∀ acc : List (Txt × ℚ), (acc.map Prod.fst).Nodup →
      ((xs.foldl upsert acc).map Prod.fst).Nodup ∧
      (∀ l, sumVals l (xs.foldl upsert acc) = sumVals l acc + sumVals l xs) ∧
      (∀ l, l ∈ (xs.foldl upsert acc).map Prod.fst ↔
        l ∈ acc.map Prod.fst ∨ l ∈ xs.map Prod.fst) := by
  induction xs with
  | nil =>
    intro acc hnd
    refine ⟨hnd, fun l => ?_, fun l => ?_⟩ <;> simp [sumVals]
  | cons kv xs ih =>
    intro acc hnd
    have hndu : ((upsert acc kv).map Prod.fst).Nodup := by
      rw [keys_upsert]
      split
      · exact hnd
      · rename_i hmem
        simp [List.nodup_append, hnd, hmem]
    obtain ⟨h1, h2, h3⟩ := ih (upsert acc kv) hndu
    refine ⟨by simpa using h1, fun l => ?_, fun l => ?_⟩
    · rw [List.foldl_cons, h2 l, sumVals_upsert l acc kv hnd]
      unfold sumVals
      by_cases hl : kv.1 = l
      · simp only [List.filter_cons, hl]
        simp only [decide_True, if_true, List.map_cons, List.sum_cons, if_pos hl.symm]
        ring
      · have hl2 : ¬ (l = kv.1) := fun h => hl h.symm
        simp only [List.filter_cons, hl]
        simp only [decide_False, Bool.false_eq_true, if_false, if_neg hl2]
        ring
    · rw [List.foldl_cons, h3 l, keys_upsert]
      split
      · rename_i hmem
        simp only [List.map_cons, List.mem_cons]
        constructor
        · rintro (h | h)
          · exact Or.inl h
          · exact Or.inr (Or.inr h)
        · rintro (h | rfl | h)
          · exact Or.inl h
          · exact Or.inl hmem
          · exact Or.inr h
      · simp only [List.mem_append, List.mem_singleton, List.map_cons, List.mem_cons,
          List.not_mem_nil, or_false]
        tauto

/-- With duplicate-free keys, each entry's amount is the label's sum. -/
theorem entry_eq_sumVals {ys : List (Txt × ℚ)} (hnd : (ys.map Prod.fst).Nodup)
    {p : Txt × ℚ} (hp : p ∈ ys) : sumVals p.1 ys = p.2 := by
  induction ys with
  | nil => simp at hp
  | cons a ys ih =>
    rw [List.map_cons, List.nodup_cons] at hnd
    rcases List.mem_cons.mp hp with rfl | hp'
    · unfold sumVals
      rw [List.filter_cons]
      have hfil : ys.filter (fun q => q.1 = p.1) = [] := by
        rw [List.filter_eq_nil_iff]
        intro q hq
        simp only [decide_eq_true_eq]
        intro hq1
        exact hnd.1 (hq1 ▸ List.mem_map_of_mem Prod.fst hq)
      simp [hfil]
    · have ha : ¬ (a.1 = p.1) := by
        intro h
        exact hnd.1 (h ▸ List.mem_map_of_mem Prod.fst hp')
      unfold sumVals
      rw [List.filter_cons]
      simp only [ha, decide_False, Bool.false_eq_true, if_neg]
      have := ih hnd.2 hp'
      unfold sumVals at this
      exact this

/-- Dropping the zero-amount entries does not change any label's sum. -/
theorem sumVals_filter_ne_zero (l : Txt) (xs : List (Txt × ℚ)) :
    sumVals l (xs.filter (fun p => ¬ p.2 = 0)) = sumVals l xs := by
  induction xs with
  | nil => rfl
  | cons a xs ih =>
    unfold sumVals at ih ⊢
    by_cases h0 : a.2 = 0
    · rw [show List.filter (fun p => decide (¬ p.2 = 0)) (a :: xs) =
          List.filter (fun p => decide (¬ p.2 = 0)) xs from by
        rw [List.filter_cons, if_neg (by simp [h0])]]
      rw [ih, List.filter_cons]
      by_cases hal : a.1 = l
      · rw [if_pos (by simp [hal])]
        simp [h0]
      · rw [if_neg (by simp [hal])]
    · rw [show List.filter (fun p => decide (¬ p.2 = 0)) (a :: xs) =
          a :: List.filter (fun p => decide (¬ p.2 = 0)) xs from by
        rw [List.filter_cons, if_pos (by simp [h0])]]
      rw [List.filter_cons, List.filter_cons]
      by_cases hal : a.1 = l
      · rw [if_pos (by simp [hal]), if_pos (by simp [hal])]
        simp only [List.map_cons, List.sum_cons, ih]
      · rw [if_neg (by simp [hal]), if_neg (by simp [hal])]
        exact ih

theorem rawRetenciones_nonneg (text : Txt) :
    ∀ q ∈ rawRetenciones text, 0 ≤ q.2 := by
  intro q hq
  have hval : ∀ g : Txt, (0 : ℚ) ≤ (parse_money g).getD 0 := by
    intro g
    cases hg : parse_money g with
    | none => simp
    | some v => simpa using parse_money_nonneg hg
  unfold rawRetenciones at hq
  rcases List.mem_append.mp hq with h | h
  · rcases List.mem_append.mp h with h' | h'
    · rcases List.mem_map.mp h' with ⟨g, -, rfl⟩; exact hval g
    · rcases List.mem_map.mp h' with ⟨g, -, rfl⟩; exact hval g
  · rcases List.mem_map.mp h with ⟨g, -, rfl⟩; exact hval g

/-- C10: the withholding extractor emits only nonzero amounts, never two
entries with the same label, and each entry's amount is the sum of all raw
match amounts for that label; a label appears exactly when some raw match
for it has a nonzero amount. -/
theorem parse_retenciones_spec (text : Txt) :
    ((parse_retenciones text).map Prod.fst).Nodup ∧
    (∀ p ∈ parse_retenciones text, p.2 ≠ 0 ∧ p.2 = sumVals p.1 (rawRetenciones text)) ∧
    (∀ l : Txt, l ∈ (parse_retenciones text).map Prod.fst ↔
      ∃ q ∈ rawRetenciones text, q.1 = l ∧ q.2 ≠ 0) := by
  obtain ⟨h1, h2, h3⟩ :=
    foldl_upsert_spec ((rawRetenciones text).filter (fun q => ¬ q.2 = 0)) [] (by simp)
  have hkeys : ∀ l, l ∈ (parse_retenciones text).map Prod.fst ↔
      l ∈ ((rawRetenciones text).filter (fun q => ¬ q.2 = 0)).map Prod.fst := by
    intro l
    rw [show parse_retenciones text =
      ((rawRetenciones text).filter (fun q => ¬ q.2 = 0)).foldl upsert [] from rfl, h3 l]
    simp
  refine ⟨h1, fun p hp => ?_, fun l => ?_⟩
  · have hsum : sumVals p.1 (parse_retenciones text) =
        sumVals p.1 ((rawRetenciones text).filter (fun q => ¬ q.2 = 0)) := by
      rw [show parse_retenciones text =
        ((rawRetenciones text).filter (fun q => ¬ q.2 = 0)).foldl upsert [] from rfl, h2 p.1]
      simp [sumVals]
    have hval2 : p.2 = sumVals p.1 ((rawRetenciones text).filter (fun q => ¬ q.2 = 0)) :=
      (entry_eq_sumVals h1 hp).symm.trans hsum
    have hmemk : p.1 ∈ ((rawRetenciones text).filter (fun q => ¬ q.2 = 0)).map Prod.fst :=
      (hkeys p.1).mp (List.mem_map_of_mem Prod.fst hp)
    have hpos : 0 < sumVals p.1 ((rawRetenciones text).filter (fun q => ¬ q.2 = 0)) := by
      unfold sumVals
      apply List.sum_pos
      · intro x hx
        rcases List.mem_map.mp hx with ⟨q, hq, rfl⟩
        have hq1 := (List.mem_filter.mp hq).1
        have hq2 := List.mem_filter.mp hq1
        have hnz : ¬ q.2 = 0 := by simpa using hq2.2
        have hnn : 0 ≤ q.2 := rawRetenciones_nonneg text q hq2.1
        exact lt_of_le_of_ne hnn (fun h => hnz h.symm)
      · rcases List.mem_map.mp hmemk with ⟨q, hq, hq1⟩
        intro hnil
        have hX := List.map_eq_nil_iff.mp hnil
        have hmem2 : q ∈ ((rawRetenciones text).filter (fun r => decide (¬ r.2 = 0))).filter
            (fun r => decide (r.1 = p.1)) :=
          List.mem_filter.mpr ⟨hq, by simp [hq1]⟩
        rw [hX] at hmem2
        simp at hmem2
    refine ⟨fun h0 => (ne_of_gt hpos) (by rw [← hval2, h0]), ?_⟩
    exact hval2.trans (sumVals_filter_ne_zero p.1 (rawRetenciones text))
  · rw [hkeys l]
    constructor
    · intro h
      rcases List.mem_map.mp h with ⟨q, hq, rfl⟩
      have hq2 := List.mem_filter.mp hq
      exact ⟨q, hq2.1, rfl, by simpa using hq2.2⟩
    · rintro ⟨q, hq, rfl, hnz⟩
      exact List.mem_map_of_mem Prod.fst (List.mem_filter.mpr ⟨hq, by simpa using hnz⟩)

/-- C10 witness: one concrete withholding entry. -/
theorem parse_retenciones_spec_witness :
    ((parse_retenciones "Ret. Ganancias: $ 100.00".data).map Prod.fst).Nodup ∧
    ((retLabelGanancias, (100 : ℚ)) ∈ parse_retenciones "Ret. Ganancias: $ 100.00".data →
      (100 : ℚ) ≠ 0 ∧
      (100 : ℚ) = sumVals retLabelGanancias
        (rawRetenciones "Ret. Ganancias: $ 100.00".data)) :=
  ⟨(parse_retenciones_spec "Ret. Ganancias: $ 100.00".data).1,
   fun hm => (parse_retenciones_spec "Ret. Ganancias: $ 100.00".data).2.1 _ hm⟩

/-- C4: for a physical credit adjustment the summary head-count and kilo totals
are the negation of the unsigned sums over the document's items; for a monetary
credit adjustment the head-count and kilo totals equal the unsigned sums while
the monetary totals (gross, VAT, expenses, VAT on expenses) are negated. -/
theorem build_outputs_sign_spec (d : ParsedDoc) :
    (d.ajuste = ⟨true, some Sentido.CREDITO, some TipoAjuste.FISICO⟩ →
      (resumen_doc d).cabezas = -((d.items.map (fun it => it.cabezas)).sum) ∧
      (resumen_doc d).kilos = -((d.items.map (fun it => it.kilos)).sum)) ∧
    (d.ajuste = ⟨true, some Sentido.CREDITO, some TipoAjuste.MONETARIO⟩ →
      (resumen_doc d).cabezas = (d.items.map (fun it => it.cabezas)).sum ∧
      (resumen_doc d).kilos = (d.items.map (fun it => it.kilos)).sum ∧
      (resumen_doc d).neto_hacienda = -d.importe_bruto ∧
      (resumen_doc d).iva_hacienda = -d.iva_bruto ∧
      (resumen_doc d).gastos_sin_iva = -d.total_gastos ∧
      (resumen_doc d).iva_gastos = -d.iva_gastos) := by
  constructor
  · intro h
    simp [resumen_doc, h, Ajuste.signo_montos, Ajuste.afecta_cabezas_kilos]
  · intro h
    simp [resumen_doc, h, Ajuste.signo_montos, Ajuste.afecta_cabezas_kilos]

/-- A concrete two-item document with a physical credit adjustment. -/
def sampleDocFisico : ParsedDoc :=
  { filename := "doc.pdf".data, cod_arca := 186, letra := "A".data, pv := [], numero := []
    titulo := [], fecha := [], fecha_operacion := [], emisor := {}, receptor := {}
    tipo_interno := "CN".data
    ajuste := ⟨true, some Sentido.CREDITO, some TipoAjuste.FISICO⟩
    importe_bruto := 1000, iva_bruto := 105, total_gastos := 50, iva_gastos := 10
    importe_neto := 1045, retenciones := []
    items := [⟨"Novillo".data, 2, 100, "Cabeza".data, 450, 900, none, none⟩,
              ⟨"Vaca".data, 3, 200, "Cabeza".data, 30, 90, none, none⟩]
    gastos := [] }

/-- C4 witness: the physical-credit branch evaluated on a concrete document. -/
theorem build_outputs_sign_spec_witness :
    (resumen_doc sampleDocFisico).cabezas = -5 ∧ (resumen_doc sampleDocFisico).kilos = -300 := by
  have h := (build_outputs_sign_spec sampleDocFisico).1 rfl
  refine ⟨h.1.trans (by norm_num [sampleDocFisico]), h.2.trans (by norm_num [sampleDocFisico])⟩

end Hacienda
